import Mathlib

/-
Verification development for the Presto native worker plan-translation and
filter-compilation layer (presto_cpp/main/types/PrestoToVeloxQueryPlan.cpp).

The development shallowly embeds the wire (coordinator protocol) data model,
the internal (Velox) plan/filter model, and the translation functions, and
proves the frozen claims C1..C10 about them.

Error model: the C++ code signals fatal errors with two macro families.
VELOX_UNSUPPORTED and VELOX_USER_CHECK sites raise user errors (the spec
calls these UnsupportedConstruct); VELOX_CHECK / VELOX_CHECK_EQ /
VELOX_CHECK_NE / VELOX_CHECK_NULL / VELOX_CHECK_NOT_NULL / VELOX_FAIL sites
raise runtime invariant errors (the spec calls these InvariantViolation).
The embedding mirrors this with the two constructors of Err below.
-/

namespace Presto

/-- Fatal translation errors. The constructor unsupported models
VELOX_UNSUPPORTED / VELOX_USER_CHECK failures (UnsupportedConstruct in the
spec); the constructor invariant models VELOX_CHECK / VELOX_FAIL failures
(InvariantViolation in the spec). -/
inductive Err
  | unsupported (msg : String)
  | invariant (msg : String)
deriving Repr

/-- Translation result monad: a translation either completes or fails
fatally, returning no partial result. -/
abbrev Conv (α : Type) : Type := Except Err α

/-- Returns true exactly when the result is a fatal UnsupportedConstruct
failure. -/
def isUnsupportedFailure {α : Type} (r : Conv α) : Bool :=
  match r with
  | .error (.unsupported _) => true
  | _ => false

/-- Returns true exactly when the result is a fatal InvariantViolation
failure. -/
def isInvariantFailure {α : Type} (r : Conv α) : Bool :=
  match r with
  | .error (.invariant _) => true
  | _ => false

/-! ## Wire-format value blocks and constants

A protocol Block is an opaque serialized constant; the code decodes it
through the Expression Converter boundary (getConstantValue) at a resolved
type. We model a block as the already-decoded constant. Floating-point
literals are outside the scope of every claim and are not representable;
the double/real filter branches below keep their blocks undecoded. -/

inductive Block
  | intVal (i : Int)
  | boolVal (b : Bool)
  | strVal (s : String)
deriving Repr, DecidableEq

/-- Decode an integer constant block (toInt64 in the source, via the
Expression Converter). Blocks of the wrong kind never arrive at this
decoder in well-typed wire plans; they decode to 0. -/
def toInt64B (b : Block) : Int :=
  match b with
  | .intVal i => i
  | .boolVal _ => 0
  | .strVal _ => 0

/-- Decode a boolean constant block (toBoolean in the source). -/
def toBooleanB (b : Block) : Bool :=
  match b with
  | .boolVal v => v
  | _ => false

/-- Decode a string constant block (toString in the source). -/
def toStringB (b : Block) : String :=
  match b with
  | .strVal s => s
  | _ => ""

/-- Decode a date constant block as its day count (dateToInt64 in the
source; Date values travel as integral day counts). -/
def dateToInt64B (b : Block) : Int :=
  match b with
  | .intVal i => i
  | _ => 0

/-! ## Wire-format ranges and domains (protocol::Range, protocol::Domain) -/

/-- Bound kind of one side of a wire range (protocol::Bound). -/
inductive PBound
  | BELOW
  | EXACTLY
  | ABOVE
deriving Repr, DecidableEq

/-- One side of a wire range (protocol::Marker): an optional constant value
block plus the bound kind. A null valueBlock means the side carries no
value. -/
structure Marker where
  valueBlock : Option Block
  bound : PBound
deriving Repr, DecidableEq

/-- A wire range (protocol::Range): low and high markers. -/
structure PRange where
  low : Marker
  high : Marker
deriving Repr, DecidableEq

/-- Resolved scalar type kinds used by the filter compiler and the plan
translator (velox TypeKind for the types this layer dispatches on). -/
inductive VType
  | tinyintT
  | smallintT
  | integerT
  | bigintT
  | realT
  | doubleT
  | varcharT
  | booleanT
  | dateT
  | otherT (sig : String)
deriving Repr, DecidableEq

/-- Parse of a wire type signature string into a type kind
(TypeSignatureTypeConverter::parse boundary, restricted to the scalar
signatures this layer dispatches on). -/
def stringToType (s : String) : VType :=
  if s = "tinyint" then .tinyintT
  else if s = "smallint" then .smallintT
  else if s = "integer" then .integerT
  else if s = "bigint" then .bigintT
  else if s = "real" then .realT
  else if s = "double" then .doubleT
  else if s = "varchar" then .varcharT
  else if s = "boolean" then .booleanT
  else if s = "date" then .dateT
  else .otherT s

/-- The wire value-set variants carried by a domain
(protocol::SortedRangeSet, protocol::EquatableValueSet,
protocol::AllOrNoneValueSet). The SortedRangeSet type string is kept
already parsed; EquatableValueSet entries are kept as their value blocks
(only emptiness is ever inspected). -/
inductive ValueSet
  | sortedRangeSet (typ : VType) (ranges : List PRange)
  | equatableValueSet (entries : List Block)
  | allOrNoneValueSet (all : Bool)
deriving Repr, DecidableEq

/-- A wire domain (protocol::Domain): a value set plus the null-allowed
flag. -/
structure Domain where
  values : ValueSet
  nullAllowed : Bool
deriving Repr, DecidableEq

/-! ## Internal (Velox) filter model

These model the velox common::Filter subclasses this file constructs,
together with their acceptance semantics (testInt64 / testNull). Velox
factory functions may choose among equivalent physical representations
(bitmask, hash table, single range) for a value set; the acceptance
semantics is identical, so the model keeps one canonical value-set form. -/

/-- Signed 64-bit minimum, as used by std::numeric_limits of int64_t. -/
def int64Min : Int := -(2 ^ 63)

/-- Signed 64-bit maximum. -/
def int64Max : Int := 2 ^ 63 - 1

/-- Signed 32-bit minimum (used by the date range filter). -/
def int32Min : Int := -(2 ^ 31)

/-- Signed 32-bit maximum (used by the date range filter). -/
def int32Max : Int := 2 ^ 31 - 1

/-- Bounds of a velox common::BigintRange filter: an inclusive integer
interval. -/
structure BigintR where
  lower : Int
  upper : Int
deriving Repr, DecidableEq

/-- Velox BigintRange::isSingleValue: the interval holds exactly one
point. -/
def BigintR.isSingleValue (r : BigintR) : Bool :=
  r.lower == r.upper

/-- A velox common::BytesRange filter: byte-string bounds with explicit
unbounded and exclusive flags per side (the stored string is empty when a
side is unbounded, mirroring the C++ constructor arguments). -/
structure BytesR where
  lower : String
  lowerUnbounded : Bool
  lowerExclusive : Bool
  upper : String
  upperUnbounded : Bool
  upperExclusive : Bool
deriving Repr, DecidableEq

/-- Velox BytesRange::isSingleValue: both sides bounded and inclusive with
equal values. -/
def BytesR.isSingleValueB (r : BytesR) : Bool :=
  !r.lowerUnbounded && !r.upperUnbounded && !r.lowerExclusive &&
    !r.upperExclusive && r.lower == r.upper

/-- The compiled filter variants constructed by this translation layer
(velox common::Filter subclasses). Double and real range filters keep
their constant blocks undecoded because floating-point decoding is outside
the scope of every claim; their structure otherwise mirrors the C++
constructor arguments. -/
inductive Filter
  | alwaysFalse
  | isNull
  | isNotNull
  | boolValue (value : Bool) (nullAllowed : Bool)
  | bigintRange (lower : Int) (upper : Int) (nullAllowed : Bool)
  | negatedBigintRange (lower : Int) (upper : Int) (nullAllowed : Bool)
  | bigintValues (values : List Int) (nullAllowed : Bool)
  | negatedBigintValues (values : List Int) (nullAllowed : Bool)
  | bigintMultiRange (ranges : List BigintR) (nullAllowed : Bool)
  | doubleRange (low : Option Block) (lowExclusive : Bool)
      (high : Option Block) (highExclusive : Bool) (nullAllowed : Bool)
  | floatRange (low : Option Block) (lowExclusive : Bool)
      (high : Option Block) (highExclusive : Bool) (nullAllowed : Bool)
  | bytesRange (r : BytesR) (nullAllowed : Bool)
  | bytesValues (values : List String) (nullAllowed : Bool)
  | negatedBytesValues (values : List String) (nullAllowed : Bool)
  | negatedBytesRange (lower : String) (lowerUnbounded : Bool)
      (lowerExclusive : Bool) (upper : String) (upperUnbounded : Bool)
      (upperExclusive : Bool) (nullAllowed : Bool)
  | multiRange (filters : List Filter) (nullAllowed : Bool)
      (nanAllowed : Bool)

/-- Velox common::createBigintValues: builds a value-set filter accepting
exactly the given integers. The library picks a bitmask, hash-table or
range representation; all have the same acceptance semantics, modelled by
the canonical value-set constructor. -/
def createBigintValues (values : List Int) (nullAllowed : Bool) : Filter :=
  .bigintValues values nullAllowed

/-- Velox common::createNegatedBigintValues: builds a filter accepting
exactly the integers not in the given set. -/
def createNegatedBigintValues (values : List Int) (nullAllowed : Bool) :
    Filter :=
  .negatedBigintValues values nullAllowed

/-- Acceptance of a non-null integer input by a compiled filter (velox
Filter::testInt64). Filters of non-integer kinds never receive integer
inputs in well-typed plans; they report false here. -/
def evalSome (f : Filter) (x : Int) : Bool :=
  match f with
  | .alwaysFalse => false
  | .isNull => false
  | .isNotNull => true
  | .boolValue _ _ => false
  | .bigintRange lower upper _ => decide (lower ≤ x) && decide (x ≤ upper)
  | .negatedBigintRange lower upper _ =>
      !(decide (lower ≤ x) && decide (x ≤ upper))
  | .bigintValues values _ => values.contains x
  | .negatedBigintValues values _ => !(values.contains x)
  | .bigintMultiRange ranges _ =>
      ranges.any fun r => decide (r.lower ≤ x) && decide (x ≤ r.upper)
  | .doubleRange _ _ _ _ _ => false
  | .floatRange _ _ _ _ _ => false
  | .bytesRange _ _ => false
  | .bytesValues _ _ => false
  | .negatedBytesValues _ _ => false
  | .negatedBytesRange _ _ _ _ _ _ _ => false
  | .multiRange _ _ _ => false

/-- Acceptance of a null input by a compiled filter (velox
Filter::testNull). -/
def evalNull (f : Filter) : Bool :=
  match f with
  | .alwaysFalse => false
  | .isNull => true
  | .isNotNull => false
  | .boolValue _ nullAllowed => nullAllowed
  | .bigintRange _ _ nullAllowed => nullAllowed
  | .negatedBigintRange _ _ nullAllowed => nullAllowed
  | .bigintValues _ nullAllowed => nullAllowed
  | .negatedBigintValues _ nullAllowed => nullAllowed
  | .bigintMultiRange _ nullAllowed => nullAllowed
  | .doubleRange _ _ _ _ nullAllowed => nullAllowed
  | .floatRange _ _ _ _ nullAllowed => nullAllowed
  | .bytesRange _ nullAllowed => nullAllowed
  | .bytesValues _ nullAllowed => nullAllowed
  | .negatedBytesValues _ nullAllowed => nullAllowed
  | .negatedBytesRange _ _ _ _ _ _ nullAllowed => nullAllowed
  | .multiRange _ nullAllowed _ => nullAllowed

/-! ## Filter compiler: per-range conversion -/

/-- Integer range conversion (bigintRangeToFilter in the source): unbounded
sides become the int64 extremes; exclusive bounds are adjusted by one to
produce an inclusive interval. The C++ also stores the null-allowed flag
inside the filter; here the flag is carried separately by the callers. -/
def bigintRangeToFilter (range : PRange) : BigintR :=
  let lowUnbounded := range.low.valueBlock.isNone
  let low0 :=
    match range.low.valueBlock with
    | none => int64Min
    | some b => toInt64B b
  let low := if !lowUnbounded && range.low.bound == .ABOVE then low0 + 1
    else low0
  let highUnbounded := range.high.valueBlock.isNone
  let high0 :=
    match range.high.valueBlock with
    | none => int64Max
    | some b => toInt64B b
  let high := if !highUnbounded && range.high.bound == .BELOW then high0 - 1
    else high0
  ⟨low, high⟩

/-- Date range conversion (dateRangeToFilter in the source): like the
integer case but uses the int32 extremes and decodes day counts. -/
def dateRangeToFilter (range : PRange) (nullAllowed : Bool) : Filter :=
  let lowUnbounded := range.low.valueBlock.isNone
  let low0 :=
    match range.low.valueBlock with
    | none => int32Min
    | some b => dateToInt64B b
  let low := if !lowUnbounded && range.low.bound == .ABOVE then low0 + 1
    else low0
  let highUnbounded := range.high.valueBlock.isNone
  let high0 :=
    match range.high.valueBlock with
    | none => int32Max
    | some b => dateToInt64B b
  let high := if !highUnbounded && range.high.bound == .BELOW then high0 - 1
    else high0
  .bigintRange low high nullAllowed

/-- Double range conversion (doubleRangeToFilter in the source). Constant
blocks are kept undecoded; the unbounded flags follow the C++ exactly. -/
def doubleRangeToFilter (range : PRange) (nullAllowed : Bool) : Filter :=
  let lowExclusive := range.low.bound == .ABOVE
  let lowUnbounded := range.low.valueBlock.isNone && lowExclusive
  let highExclusive := range.high.bound == .BELOW
  let highUnbounded := range.high.valueBlock.isNone && highExclusive
  .doubleRange (if lowUnbounded then none else range.low.valueBlock)
    lowExclusive (if highUnbounded then none else range.high.valueBlock)
    highExclusive nullAllowed

/-- Float range conversion (floatRangeToFilter in the source). -/
def floatRangeToFilter (range : PRange) (nullAllowed : Bool) : Filter :=
  let lowExclusive := range.low.bound == .ABOVE
  let lowUnbounded := range.low.valueBlock.isNone && lowExclusive
  let highExclusive := range.high.bound == .BELOW
  let highUnbounded := range.high.valueBlock.isNone && highExclusive
  .floatRange (if lowUnbounded then none else range.low.valueBlock)
    lowExclusive (if highUnbounded then none else range.high.valueBlock)
    highExclusive nullAllowed

/-- Varchar range conversion (varcharRangeToFilter in the source): the
stored string is empty when a side is unbounded. -/
def varcharRangeToFilter (range : PRange) : BytesR :=
  let lowExclusive := range.low.bound == .ABOVE
  let lowUnbounded := range.low.valueBlock.isNone && lowExclusive
  let low := if lowUnbounded then ""
    else toStringB (range.low.valueBlock.getD (.strVal ""))
  let highExclusive := range.high.bound == .BELOW
  let highUnbounded := range.high.valueBlock.isNone && highExclusive
  let high := if highUnbounded then ""
    else toStringB (range.high.valueBlock.getD (.strVal ""))
  ⟨low, lowUnbounded, lowExclusive, high, highUnbounded, highExclusive⟩

/-- Boolean range conversion (boolRangeToFilter in the source). A range
with both sides carrying a value must carry the same value on both sides
(VELOX_CHECK_EQ); one-side-bounded ranges resolve to a constant boolean
filter, always-false, or is-null. -/
def boolRangeToFilter (range : PRange) (nullAllowed : Bool) : Conv Filter :=
  let lowExclusive := range.low.bound == .ABOVE
  let lowUnbounded := range.low.valueBlock.isNone && lowExclusive
  let highExclusive := range.high.bound == .BELOW
  let highUnbounded := range.high.valueBlock.isNone && highExclusive
  if !lowUnbounded && !highUnbounded then
    let lowValue := toBooleanB (range.low.valueBlock.getD (.boolVal false))
    let highValue := toBooleanB (range.high.valueBlock.getD (.boolVal false))
    if lowValue == highValue then .ok (.boolValue lowValue nullAllowed)
    else .error (.invariant
      "Boolean range should not be FALSE, TRUE after coordinator optimization.")
  else if lowUnbounded == highUnbounded then
    .error (.invariant
      "Passed in boolean range can only have one side bounded range scenario")
  else if !lowUnbounded then
    let lowValue := toBooleanB (range.low.valueBlock.getD (.boolVal false))
    if lowExclusive && lowValue then
      if nullAllowed then .ok .isNull else .ok .alwaysFalse
    else if !lowExclusive && !lowValue then
      .error (.invariant "Case FALSE-inclusive to plus-infinity should not be expected")
    else .ok (.boolValue true nullAllowed)
  else
    let highValue := toBooleanB (range.high.valueBlock.getD (.boolVal false))
    if highExclusive && !highValue then
      if nullAllowed then .ok .isNull else .ok .alwaysFalse
    else if !highExclusive && highValue then
      .error (.invariant "Case minus-infinity to TRUE-inclusive should not be expected")
    else .ok (.boolValue false nullAllowed)

/-! ## Filter compiler: combining multiple integer ranges -/

/-- The scan loop of the negated-value-set detection in
combineIntegerRanges (the for loop over indices 1..n-1 in the source).
Returns (allNegatedValues, foundMaximum, rejectedValues). -/
def negLoop (prev : BigintR) (gs : List BigintR) (acc : List Int) :
    Bool × Bool × List Int :=
  match gs with
  | [] => (true, false, acc)
  | f :: rest =>
    if f.lower ≠ prev.upper + 2 then (false, false, acc)
    else if f.upper = int64Max then (true, true, acc)
    else
      let acc2 := acc ++ [f.upper + 1]
      if f.upper = int64Max - 1 then (true, true, acc2)
      else negLoop f rest acc2

/-- The negated-value-set detection tail of combineIntegerRanges: bail out
to a generic multi-range filter when the first range leaves more than one
value below it, otherwise collect the isolated rejected values and emit a
negated value set when the scan reaches the maximum. -/
def negatedPath (fs : List BigintR) (nullAllowed : Bool) : Filter :=
  match fs with
  | [] => .bigintMultiRange [] nullAllowed
  | f0 :: rest =>
    if f0.lower > int64Min + 1 then
      .bigintMultiRange (f0 :: rest) nullAllowed
    else
      let rejected0 : List Int :=
        if f0.lower = int64Min + 1 then [int64Min] else []
      let rejected1 := rejected0 ++ [f0.upper + 1]
      match negLoop f0 rest rejected1 with
      | (true, true, rejected) =>
          createNegatedBigintValues rejected nullAllowed
      | _ => .bigintMultiRange (f0 :: rest) nullAllowed

/-- The non-all-single-value tail of combineIntegerRanges: the special
two-range negated-range case, then the negated-value-set detection. -/
def combineNonSingle (fs : List BigintR) (nullAllowed : Bool) : Filter :=
  match fs with
  | [a, b] =>
    if a.lower = int64Min && b.upper = int64Max then
      .negatedBigintRange (a.upper + 1) (b.lower - 1) nullAllowed
    else negatedPath [a, b] nullAllowed
  | other => negatedPath other nullAllowed

/-- combineIntegerRanges in the source: all-single-value ranges become a
value-set filter; two ranges spanning both extremes become a negated
range; ranges tiling the space except isolated points and reaching the
maximum become a negated value set; anything else becomes a generic
multi-range filter. -/
def combineIntegerRanges (bigintFilters : List BigintR)
    (nullAllowed : Bool) : Filter :=
  if bigintFilters.all (·.isSingleValue) then
    createBigintValues (bigintFilters.map (·.lower)) nullAllowed
  else combineNonSingle bigintFilters nullAllowed

/-! ## Filter compiler: combining multiple byte-string ranges -/

/-- One boundary step of the unmatched-boundary pairing in
combineBytesRanges: matching boundary values pair up into rejected values,
an unmatched boundary stays in the unmatched collection. -/
def bytesBoundaryStep (unmatched : List String) (rejected : List String)
    (value : String) : List String × List String :=
  if unmatched.contains value then
    (unmatched.erase value, rejected ++ [value])
  else (unmatched ++ [value], rejected)

/-- The boundary scan of combineBytesRanges: counts lower-unbounded and
upper-unbounded ranges and pairs up matching exclusive boundaries.
Returns (lowerUnbounded, upperUnbounded, unmatched, rejectedValues). -/
def bytesScan (fs : List BytesR) :
    Nat × Nat × List String × List String :=
  fs.foldl
    (fun (st : Nat × Nat × List String × List String) r =>
      let (lu, uu, unmatched, rejected) := st
      let (lu, unmatched, rejected) :=
        if r.lowerUnbounded then (lu + 1, unmatched, rejected)
        else
          let (u, rj) := bytesBoundaryStep unmatched rejected r.lower
          (lu, u, rj)
      let (uu, unmatched, rejected) :=
        if r.upperUnbounded then (uu + 1, unmatched, rejected)
        else
          let (u, rj) := bytesBoundaryStep unmatched rejected r.upper
          (uu, u, rj)
      (lu, uu, unmatched, rejected))
    (0, 0, [], [])

/-- combineBytesRanges in the source: all-single-value ranges become a
value-set filter; all-exclusive ranges whose boundaries pair up except one
lower-unbounded and one upper-unbounded range become a negated value set;
two ranges spanning both extremes become a negated range; anything else
becomes a generic multi-range filter. -/
def combineBytesRanges (bytesFilters : List BytesR)
    (nullAllowed : Bool) : Filter :=
  if bytesFilters.all (·.isSingleValueB) then
    .bytesValues (bytesFilters.map (·.lower)) nullAllowed
  else
    let allExclusive :=
      bytesFilters.all fun r => r.lowerExclusive && r.upperExclusive
    let scan := bytesScan bytesFilters
    if allExclusive && scan.1 == 1 && scan.2.1 == 1 &&
        scan.2.2.1.isEmpty then
      .negatedBytesValues scan.2.2.2 nullAllowed
    else
      match bytesFilters with
      | [a, b] =>
        if a.lowerUnbounded && b.upperUnbounded then
          .negatedBytesRange a.upper false (!a.upperExclusive) b.lower
            false (!b.lowerExclusive) nullAllowed
        else
          .multiRange (bytesFilters.map (.bytesRange · nullAllowed))
            nullAllowed false
      | _ =>
        .multiRange (bytesFilters.map (.bytesRange · nullAllowed))
          nullAllowed false

/-! ## Filter compiler: top level -/

/-- Per-range, per-type filter conversion (the toFilter overload taking a
type and a range in the source). -/
def toFilterRange (typ : VType) (range : PRange) (nullAllowed : Bool) :
    Conv Filter :=
  match typ with
  | .tinyintT | .smallintT | .integerT | .bigintT =>
    let r := bigintRangeToFilter range
    .ok (.bigintRange r.lower r.upper nullAllowed)
  | .doubleT => .ok (doubleRangeToFilter range nullAllowed)
  | .varcharT => .ok (.bytesRange (varcharRangeToFilter range) nullAllowed)
  | .booleanT => boolRangeToFilter range nullAllowed
  | .realT => .ok (floatRangeToFilter range nullAllowed)
  | .dateT => .ok (dateRangeToFilter range nullAllowed)
  | .otherT _ => .error (.unsupported "Unsupported range type")

/-- True for the integer type-kind family handled by the multi-range
integer combination branch. -/
def isIntegerTypeKind (typ : VType) : Bool :=
  match typ with
  | .bigintT | .integerT | .smallintT | .tinyintT => true
  | _ => false

/-- The multi-range boolean branch of toFilter: exactly two ranges are
expected; each converts through boolRangeToFilter; always-false and
is-null results are dropped and exactly one boolean filter must
survive. -/
def combineBoolRanges (ranges : List PRange) (nullAllowed : Bool) :
    Conv Filter :=
  if ranges.length ≠ 2 then
    .error (.invariant "Multi bool ranges size can only be 2.")
  else do
    let acc ← ranges.foldlM
      (fun (acc : Option Filter) range => do
        let f ← boolRangeToFilter range nullAllowed
        match f with
        | .alwaysFalse => pure acc
        | .isNull => pure acc
        | f =>
          match acc with
          | some _ => .error (.invariant "Expected null bool filter")
          | none => pure (some f))
      none
    match acc with
    | some f => .ok f
    | none => .error (.invariant "Expected non-null bool filter")

/-- The value-domain-to-filter compiler (the toFilter overload taking a
protocol::Domain in the source). -/
def toFilter (domain : Domain) : Conv Filter :=
  let nullAllowed := domain.nullAllowed
  match domain.values with
  | .sortedRangeSet typ ranges =>
    match ranges with
    | [] =>
      if nullAllowed then .ok .isNull
      else .error (.invariant "Unexpected always-false filter")
    | [range] =>
      let lowExclusive := range.low.bound == .ABOVE
      let lowUnbounded := range.low.valueBlock.isNone && lowExclusive
      let highExclusive := range.high.bound == .BELOW
      let highUnbounded := range.high.valueBlock.isNone && highExclusive
      if lowUnbounded && highUnbounded && !nullAllowed then .ok .isNotNull
      else toFilterRange typ range nullAllowed
    | ranges =>
      if isIntegerTypeKind typ then
        .ok (combineIntegerRanges (ranges.map bigintRangeToFilter)
          nullAllowed)
      else if typ == .varcharT then
        .ok (combineBytesRanges (ranges.map varcharRangeToFilter)
          nullAllowed)
      else if typ == .booleanT then
        combineBoolRanges ranges nullAllowed
      else do
        let filters ← ranges.mapM fun range =>
          toFilterRange typ range nullAllowed
        .ok (.multiRange filters nullAllowed false)
  | .equatableValueSet entries =>
    if entries.isEmpty then
      if nullAllowed then .ok .isNull else .ok .isNotNull
    else
      .error (.unsupported
        "EquatableValueSet with non-empty entries to Velox filter conversion is not supported yet.")
  | .allOrNoneValueSet _ =>
    .error (.unsupported
      "AllOrNoneValueSet to Velox filter conversion is not supported yet.")

/-! ## Wire-format row expressions (protocol::RowExpression) -/

/-- A wire variable reference (protocol::VariableReferenceExpression):
a name plus a type signature string. -/
structure VariableRef where
  name : String
  typ : String
deriving Repr, DecidableEq

/-- Function kind of a wire function handle (protocol::FunctionKind). -/
inductive FunctionKind
  | SCALAR
  | AGGREGATE
  | WINDOW
deriving Repr, DecidableEq

/-- A wire function handle: built-in handles carry a signature kind and
name (protocol::BuiltInFunctionHandle); other handle variants are kept
abstract. -/
inductive FunctionHandle
  | builtin (kind : FunctionKind) (name : String)
  | otherHandle (tag : String)
deriving Repr, DecidableEq

/-- A wire row expression (protocol::RowExpression): variable references,
call expressions with a return type signature, constants carrying a value
block, and other variants kept abstract. -/
inductive RowExpression
  | varExpr (v : VariableRef)
  | call (returnType : String) (handle : FunctionHandle)
      (args : List RowExpression)
  | constant (typ : String) (valueBlock : Block)
  | special (tag : String) (returnType : String)
      (args : List RowExpression)
deriving Repr

/-- The equal helper in the source: true when the actual expression is a
variable reference with the expected name and type. -/
def equal (actual : RowExpression) (expected : VariableRef) : Bool :=
  match actual with
  | .varExpr v => v.name == expected.name && v.typ == expected.typ
  | _ => false

/-- isFunctionCall in the source: returns the arguments when the
expression is a call to a built-in scalar function with the given name. -/
def isFunctionCall (expr : RowExpression) (functionName : String) :
    Option (List RowExpression) :=
  match expr with
  | .call _ (.builtin .SCALAR n) args =>
    if n == functionName then some args else none
  | _ => none

/-- isNot in the source: recognizes a call of presto.default.not. -/
def isNot (expr : RowExpression) : Option (List RowExpression) :=
  isFunctionCall expr "presto.default.not"

/-- isGreaterThan in the source: recognizes a call of the greater-than
operator. -/
def isGreaterThan (expr : RowExpression) : Option (List RowExpression) :=
  isFunctionCall expr "presto.default.$operator$greater_than"

/-! ## Internal (Velox) typed expressions and the converter boundary -/

/-- An internal typed expression (velox core::ITypedExpr variants used by
this layer): field accesses, constants, and calls. -/
inductive TypedExpr
  | fieldAccess (typ : VType) (name : String)
  | constantExpr (typ : VType) (valueBlock : Block)
  | callExpr (typ : VType) (name : String) (args : List TypedExpr)
deriving Repr

/-- Resolved type of an internal typed expression. -/
def TypedExpr.typ : TypedExpr → VType
  | .fieldAccess t _ => t
  | .constantExpr t _ => t
  | .callExpr t _ _ => t

mutual
/-- Modelled from the spec: the Expression Converter boundary
(VeloxExprConverter::toVeloxExpr, repository code outside the provided
sources). Per the spec it maps field references to internal field
accesses, literal constants to internal constants, and call expressions
to internal calls, resolving type signature strings. -/
def toVeloxExpr : RowExpression → TypedExpr
  | .varExpr v => .fieldAccess (stringToType v.typ) v.name
  | .constant t b => .constantExpr (stringToType t) b
  | .call rt (.builtin _ n) args =>
    .callExpr (stringToType rt) n (toVeloxExprList args)
  | .call rt (.otherHandle n) args =>
    .callExpr (stringToType rt) n (toVeloxExprList args)
  | .special tag rt args =>
    .callExpr (stringToType rt) tag (toVeloxExprList args)

/-- Pointwise conversion of expression lists through the converter
boundary. -/
def toVeloxExprList : List RowExpression → List TypedExpr
  | [] => []
  | e :: es => toVeloxExpr e :: toVeloxExprList es
end

/-! ## Row types -/

/-- An internal row type: ordered named fields with resolved types
(velox RowType). -/
abbrev RowTypeL : Type := List (String × VType)

/-- The toRowType helper in the source: builds a row type from wire
variables, excluding the given names. -/
def toRowTypeEx (vars : List VariableRef) (excludeNames : List String) :
    RowTypeL :=
  (vars.filter fun v => !(excludeNames.contains v.name)).map
    fun v => (v.name, stringToType v.typ)

/-- The toRowType helper with no excluded names. -/
def toRowTypeL (vars : List VariableRef) : RowTypeL :=
  toRowTypeEx vars []

/-- Index of a named field in a row type (velox RowType::getChildIdx,
which raises a user error when the field is missing). -/
def getChildIdx (rowType : RowTypeL) (name : String) : Conv Nat :=
  match rowType.findIdx? (fun p => p.1 == name) with
  | some i => .ok i
  | none => .error (.unsupported ("Field not found: " ++ name))

/-! ## Wire plan nodes (protocol::PlanNode) -/

/-- Exchange scope (protocol::ExchangeNodeScope). -/
inductive ExchangeScope
  | LOCAL
  | REMOTE_STREAMING
deriving Repr, DecidableEq

/-- Exchange type (protocol::ExchangeNodeType). -/
inductive ExchangeType
  | GATHER
  | REPARTITION
  | REPLICATE
deriving Repr, DecidableEq

/-- System partitioning kind (protocol::SystemPartitioning). -/
inductive SystemPartitioning
  | SINGLE
  | FIXED
  | COORDINATOR_ONLY
deriving Repr, DecidableEq

/-- System partition function (protocol::SystemPartitionFunction). -/
inductive SystemPartitionFunction
  | SINGLE
  | HASH
  | ROUND_ROBIN
  | BROADCAST
  | UNKNOWN
deriving Repr, DecidableEq

/-- Hive bucket function type (protocol::BucketFunctionType). -/
inductive BucketFunctionType
  | HIVE_COMPATIBLE
  | PRESTO_NATIVE
deriving Repr, DecidableEq

/-- The connector partitioning handle variants dispatched on by this layer
(protocol::SystemPartitioningHandle, protocol::HivePartitioningHandle,
anything else abstract). -/
inductive PartitioningHandle
  | system (partitioning : SystemPartitioning)
      (function : SystemPartitionFunction)
  | hivePart (bucketCount : Int) (bucketFunctionType : BucketFunctionType)
  | otherPart (tag : String)
deriving Repr, DecidableEq

/-- Wire sort order (protocol::SortOrder). -/
inductive PSortOrder
  | ASC_NULLS_FIRST
  | ASC_NULLS_LAST
  | DESC_NULLS_FIRST
  | DESC_NULLS_LAST
deriving Repr, DecidableEq

/-- One ordering entry of a wire ordering scheme. -/
structure OrderByW where
  variable0 : VariableRef
  sortOrder : PSortOrder
deriving Repr, DecidableEq

/-- A wire partitioning scheme (protocol::PartitioningScheme): the
partitioning handle with its key argument expressions, the output layout,
the optional bucket-to-partition mapping, and the replicate flag. -/
structure PartitioningScheme where
  handle : PartitioningHandle
  arguments : List RowExpression
  outputLayout : List VariableRef
  bucketToPartition : Option (List Int)
  replicateNullsAndAny : Bool
deriving Repr

/-- Wire limit step (protocol::LimitNodeStep). -/
inductive LimitNodeStep
  | PARTIAL
  | FINAL
deriving Repr, DecidableEq

/-- The wire plan node variants this development embeds
(protocol::PlanNode subtypes). Variants not needed by any claim are
folded into unknownN, which the dispatcher rejects exactly like an
unrecognized subtype in the source. -/
inductive PlanNode
  | exchange (id : String) (scope : ExchangeScope) (etype : ExchangeType)
      (scheme : PartitioningScheme) (orderingScheme : Option (List OrderByW))
      (inputs : List (List VariableRef)) (sources : List PlanNode)
  | filterN (id : String) (predicate : RowExpression) (source : PlanNode)
  | projectN (id : String)
      (assignments : List (VariableRef × RowExpression)) (source : PlanNode)
  | limitN (id : String) (count : Int) (step : LimitNodeStep)
      (source : PlanNode)
  | rowNumberN (id : String) (rowNumberVariable : VariableRef)
      (source : PlanNode)
  | semiJoinN (id : String) (source : PlanNode) (filteringSource : PlanNode)
      (sourceJoinVariable : VariableRef)
      (filteringSourceJoinVariable : VariableRef)
      (semiJoinOutput : VariableRef)
  | valuesN (id : String) (outputVariables : List VariableRef)
      (rows : List (List RowExpression))
  | assignUniqueIdN (id : String) (idVariable : VariableRef)
      (source : PlanNode)
  | outputN (id : String) (outputVariables : List VariableRef)
      (source : PlanNode)
  | unknownN (tag : String) (id : String)
deriving Repr

/-! ## Internal (Velox) plan nodes -/

/-- Internal join types (velox core::JoinType values used here). -/
inductive JoinType
  | kInner
  | kLeft
  | kRight
  | kFull
  | kLeftSemiFilter
  | kLeftSemiProject
  | kAnti
deriving Repr, DecidableEq

/-- Internal local partition type (velox core::LocalPartitionNode::Type). -/
inductive LocalPartitionType
  | kGather
  | kRepartition
deriving Repr, DecidableEq

/-- Internal sort order (velox core::SortOrder): ascending flag and
nulls-first flag. -/
structure SortOrderV where
  ascending : Bool
  nullsFirst : Bool
deriving Repr, DecidableEq

/-- toVeloxSortOrder in the source. -/
def toVeloxSortOrder (s : PSortOrder) : SortOrderV :=
  match s with
  | .ASC_NULLS_FIRST => ⟨true, true⟩
  | .ASC_NULLS_LAST => ⟨true, false⟩
  | .DESC_NULLS_FIRST => ⟨false, true⟩
  | .DESC_NULLS_LAST => ⟨false, false⟩

/-- A resolved partition key channel: an input column index or the
constant-channel marker (kConstantChannel in the source). -/
inductive Channel
  | ch (i : Nat)
  | constantChannel
deriving Repr, DecidableEq

/-- Internal partition function specifications (velox
HashPartitionFunctionSpec, RoundRobinPartitionFunctionSpec,
HivePartitionFunctionSpec, and the gather spec used by
LocalPartitionNode::gather). Constant key values are carried as their
one-row constant blocks. -/
inductive PartFuncSpec
  | hashSpec (inputType : RowTypeL) (keyChannels : List Channel)
      (constValues : List Block)
  | roundRobinSpec
  | hiveSpec (bucketCount : Int) (bucketToPartition : List Int)
      (keyChannels : List Channel) (constValues : List Block)
  | gatherSpec
deriving Repr, DecidableEq

/-- The internal plan node variants produced by the embedded translation
(velox core::PlanNode subtypes plus the partitioned-output forms). Values
node payload vectors are out of scope; only the row type is kept. -/
inductive CorePlanNode
  | project (id : String) (names : List String)
      (projections : List TypedExpr) (source : CorePlanNode)
  | filterNode (id : String) (predicate : TypedExpr) (source : CorePlanNode)
  | limitNode (id : String) (offset : Int) (count : Int)
      (isPartialStep : Bool) (source : CorePlanNode)
  | valuesNode (id : String) (outputType : RowTypeL)
  | hashJoin (id : String) (joinType : JoinType) (nullAware : Bool)
      (leftKeys : List TypedExpr) (rightKeys : List TypedExpr)
      (filterExpr : Option TypedExpr) (left : CorePlanNode)
      (right : CorePlanNode) (outputType : RowTypeL)
  | localPartition (id : String) (ltype : LocalPartitionType)
      (spec : PartFuncSpec) (sources : List CorePlanNode)
  | localMerge (id : String) (sortingKeys : List TypedExpr)
      (sortingOrders : List SortOrderV) (sources : List CorePlanNode)
  | assignUniqueId (id : String) (idName : String) (taskUniqueIdVal : Nat)
      (source : CorePlanNode)
  | partitionedOutputSingle (id : String) (outputType : RowTypeL)
      (source : CorePlanNode)
  | partitionedOutputBroadcast (id : String) (numPartitions : Int)
      (outputType : RowTypeL) (source : CorePlanNode)
  | partitionedOutput (id : String) (keys : List TypedExpr)
      (numPartitions : Int) (replicateNullsAndAny : Bool)
      (spec : PartFuncSpec) (outputType : RowTypeL) (source : CorePlanNode)
deriving Repr

/-- Output row type of an internal plan node (velox
PlanNode::outputType). -/
def CorePlanNode.outputType : CorePlanNode → RowTypeL
  | .project _ names projections _ =>
    names.zip (projections.map TypedExpr.typ)
  | .filterNode _ _ source => source.outputType
  | .limitNode _ _ _ _ source => source.outputType
  | .valuesNode _ t => t
  | .hashJoin _ _ _ _ _ _ _ _ t => t
  | .localPartition _ _ _ (s :: _) => s.outputType
  | .localPartition _ _ _ [] => []
  | .localMerge _ _ _ (s :: _) => s.outputType
  | .localMerge _ _ _ [] => []
  | .assignUniqueId _ idName _ source =>
    source.outputType ++ [(idName, .bigintT)]
  | .partitionedOutputSingle _ t _ => t
  | .partitionedOutputBroadcast _ _ t _ => t
  | .partitionedOutput _ _ _ _ _ t _ => t

/-! ## Plan translation helpers -/

/-- A parsed task identifier (PrestoTaskId boundary): the stage id and the
task number, both non-negative. -/
structure TaskIdM where
  stageId : Nat
  taskNum : Nat
deriving Repr, DecidableEq

/-- The unique-id computation of the AssignUniqueId translation: the low
10 bits of the stage id followed by the low 14 bits of the task number.
The C++ computes this in 32-bit signed arithmetic; both operands are
non-negative and below 2 to the 24, so natural-number arithmetic is
exact. -/
def taskUniqueId (stageId taskNum : Nat) : Nat :=
  ((stageId &&& ((1 <<< 10) - 1)) <<< 14) ||| (taskNum &&& ((1 <<< 14) - 1))

/-- getNames in the source: the assignment output names in order. -/
def getNames (assignments : List (VariableRef × RowExpression)) :
    List String :=
  assignments.map fun a => a.1.name

/-- getProjections in the source: the assignment expressions converted
through the Expression Converter in order. -/
def getProjections (assignments : List (VariableRef × RowExpression)) :
    List TypedExpr :=
  assignments.map fun a => toVeloxExpr a.2

/-- The loop body of isIdentityProjection in the source: every assignment
maps a variable to itself. -/
def isIdentityAssignments
    (assignments : List (VariableRef × RowExpression)) : Bool :=
  assignments.all fun entry => equal entry.2 entry.1

/-- isFixedPartition specialized as in isRoundRobinPartition in the
source: a repartitioning exchange over a system FIXED round-robin
partitioning handle. -/
def isRoundRobinPartitionOf (etype : ExchangeType)
    (scheme : PartitioningScheme) : Bool :=
  match etype, scheme.handle with
  | .REPARTITION, .system .FIXED .ROUND_ROBIN => true
  | _, _ => false

/-- isFixedPartition specialized as in isHashPartition in the source. -/
def isHashPartitionOf (etype : ExchangeType)
    (scheme : PartitioningScheme) : Bool :=
  match etype, scheme.handle with
  | .REPARTITION, .system .FIXED .HASH => true
  | _, _ => false

/-- toLocalExchangeType in the source. -/
def toLocalExchangeType (etype : ExchangeType) : Conv LocalPartitionType :=
  match etype with
  | .GATHER => .ok .kGather
  | .REPARTITION => .ok .kRepartition
  | .REPLICATE => .error (.unsupported "Unsupported exchange type")

/-- toFieldExprs in the source: converts each expression and requires a
field access (VELOX_CHECK_NOT_NULL otherwise). -/
def toFieldExprs (expressions : List RowExpression) :
    Conv (List TypedExpr) :=
  expressions.mapM fun expr =>
    match toVeloxExpr expr with
    | .fieldAccess t n => .ok (TypedExpr.fieldAccess t n)
    | _ =>
      .error (.invariant "Unexpected expression type. Expected variable.")

/-- toTypedExprs in the source: converts each expression and requires a
field access or a constant (VELOX_CHECK_NOT_NULL otherwise). -/
def toTypedExprsW (expressions : List RowExpression) :
    Conv (List TypedExpr) :=
  expressions.mapM fun expr =>
    match toVeloxExpr expr with
    | .fieldAccess t n => .ok (TypedExpr.fieldAccess t n)
    | .constantExpr t b => .ok (TypedExpr.constantExpr t b)
    | _ =>
      .error
        (.invariant "Unexpected expression type. Expected variable or constant.")

/-- toChannels in the source: resolves each field access to its column
index in the row type. -/
def toChannels (rowType : RowTypeL) (fields : List TypedExpr) :
    Conv (List Nat) :=
  fields.mapM fun f =>
    match f with
    | .fieldAccess _ n => getChildIdx rowType n
    | _ => .error (.invariant "Expected field access")

/-- The offset-constant extraction inside tryConvertOffsetLimit in the
source: the predicate must be a greater-than call whose first argument is
the row-number variable and whose second argument converts to a bigint
constant; the decoded constant is the offset. Any other shape yields no
match. -/
def offsetConstant (predicate : RowExpression)
    (rowNumberVariable : VariableRef) : Option Int :=
  match isGreaterThan predicate with
  | some (arg0 :: arg1 :: _) =>
    if equal arg0 rowNumberVariable then
      match toVeloxExpr arg1 with
      | .constantExpr t b =>
        match t with
        | .bigintT => some (toInt64B b)
        | _ => none
      | _ => none
    else none
  | _ => none

/-! ## The recursive plan-node translator

The dispatcher (VeloxQueryPlanConverterBase::toVeloxQueryPlan over
protocol::PlanNode) recurses into children; the offset/limit rewrite
(tryConvertOffsetLimit) pattern-matches a seven-node chain before generic
lowering of a Project node. The single-source local exchange checks of
isLocalSingleSourceExchange appear here as the LOCAL-scope tests over
exchanges matched with a one-element source list. -/

mutual

/-- The recursive wire-to-internal plan node translation
(VeloxQueryPlanConverterBase::toVeloxQueryPlan dispatcher together with
the per-variant overloads embedded by this development). -/
def toVeloxQueryPlan (tid : TaskIdM) (node : PlanNode) :
    Conv CorePlanNode :=
  match node with
  | .exchange id scope etype scheme orderingScheme inputs sources =>
    if scope ≠ .LOCAL then
      .error (.unsupported "Unsupported ExchangeNode scope")
    else do
      let sourceNodes ← toVeloxPlanList tid sources
      match orderingScheme with
      | some orderBy =>
        let sortingKeys := orderBy.map fun o =>
          toVeloxExpr (.varExpr o.variable0)
        let sortingOrders := orderBy.map fun o => toVeloxSortOrder o.sortOrder
        .ok (.localMerge id sortingKeys sortingOrders sourceNodes)
      | none => do
        let ltype ← toLocalExchangeType etype
        let outputType := toRowTypeL scheme.outputLayout
        let wrapped := sourceNodes.enum.map fun (i, s) =>
          let desired := toRowTypeL (inputs.getD i [])
          let projections := (List.range outputType.length).map fun j =>
            TypedExpr.fieldAccess (outputType.getD j ("", .bigintT)).2
              (desired.getD j ("", .bigintT)).1
          CorePlanNode.project (id ++ "." ++ toString i)
            (outputType.map Prod.fst) projections s
        if isHashPartitionOf etype scheme then do
          let partitionKeys ← toFieldExprs scheme.arguments
          let keyChannels ← toChannels outputType partitionKeys
          .ok (.localPartition id ltype
            (.hashSpec outputType (keyChannels.map Channel.ch) []) wrapped)
        else if isRoundRobinPartitionOf etype scheme then
          .ok (.localPartition id ltype .roundRobinSpec wrapped)
        else if ltype == .kGather then
          .ok (.localPartition id .kGather .gatherSpec wrapped)
        else .error (.unsupported "Unsupported flavor of local exchange")
  | .filterN id predicate
      (.semiJoinN sjId sjSource sjFilteringSource sourceJoinVariable
        filteringSourceJoinVariable semiJoinOutput) =>
      let joinTypeOpt : Option JoinType :=
        if equal predicate semiJoinOutput then some .kLeftSemiFilter
        else
          match isNot predicate with
          | some (arg0 :: _) =>
            if equal arg0 semiJoinOutput then some .kAnti else none
          | _ => none
      let leftKeys := [toVeloxExpr (.varExpr sourceJoinVariable)]
      let rightKeys := [toVeloxExpr (.varExpr filteringSourceJoinVariable)]
      do
        let left ← toVeloxQueryPlan tid sjSource
        let right ← toVeloxQueryPlan tid sjFilteringSource
        let leftNames := left.outputType.map Prod.fst
        let leftTypes := left.outputType.map Prod.snd
        let names := leftNames ++ [semiJoinOutput.name]
        match joinTypeOpt with
        | none =>
          let types := leftTypes ++ [VType.booleanT]
          .ok (.filterNode id (toVeloxExpr predicate)
            (.hashJoin sjId .kLeftSemiProject false leftKeys rightKeys
              none left right (names.zip types)))
        | some jt =>
          let projections := left.outputType.map
            (fun p => TypedExpr.fieldAccess p.2 p.1) ++
            [TypedExpr.constantExpr .booleanT
              (.boolVal (jt == .kLeftSemiFilter))]
          .ok (.project id names projections
            (.hashJoin sjId jt (jt == .kAnti) leftKeys rightKeys none
              left right left.outputType))
  | .filterN id predicate source => do
    .ok (.filterNode id (toVeloxExpr predicate)
      (← toVeloxQueryPlan tid source))
  | .projectN id assignments source => do
    match ← tryConvertOffsetLimit tid id assignments source with
    | some limitPlan => pure limitPlan
    | none =>
      .ok (.project id (getNames assignments) (getProjections assignments)
        (← toVeloxQueryPlan tid source))
  | .limitN id count step source => do
    .ok (.limitNode id 0 count (step == .PARTIAL)
      (← toVeloxQueryPlan tid source))
  | .valuesN id outputVariables rows =>
    if rows.all (fun row => row.all fun cell =>
        match toVeloxExpr cell with
        | .constantExpr _ _ => true
        | _ => false) then
      .ok (.valuesNode id (toRowTypeL outputVariables))
    else .error (.invariant "Expected constant expression")
  | .assignUniqueIdN id idVariable source => do
    .ok (.assignUniqueId id idVariable.name
      (taskUniqueId tid.stageId tid.taskNum)
      (← toVeloxQueryPlan tid source))
  | .outputN id outputVariables source => do
    .ok (.partitionedOutputSingle id (toRowTypeL outputVariables)
      (← toVeloxQueryPlan tid source))
  | .rowNumberN _ _ _ =>
    .error (.unsupported "Unknown plan node type RowNumberNode")
  | .semiJoinN _ _ _ _ _ _ =>
    .error (.unsupported "Unknown plan node type SemiJoinNode")
  | .unknownN tag _ =>
    .error (.unsupported ("Unknown plan node type " ++ tag))
termination_by sizeOf node
decreasing_by all_goals first | (simp_wf; omega) | simp_wf | omega

/-- Pointwise translation of a list of wire plan nodes. -/
def toVeloxPlanList (tid : TaskIdM) (nodes : List PlanNode) :
    Conv (List CorePlanNode) :=
  match nodes with
  | [] => .ok []
  | n :: ns => do
    let v ← toVeloxQueryPlan tid n
    let vs ← toVeloxPlanList tid ns
    .ok (v :: vs)
termination_by sizeOf nodes
decreasing_by all_goals first | (simp_wf; omega) | simp_wf | omega

/-- tryConvertOffsetLimit in the source: detects the seven-node
offset/limit chain under a Project node and rewrites it to a Project over
a Limit carrying the offset. Any shape deviation yields no match (ok
none), causing generic lowering to proceed. -/
def tryConvertOffsetLimit (tid : TaskIdM) (id : String)
    (assignments : List (VariableRef × RowExpression)) (source : PlanNode) :
    Conv (Option CorePlanNode) :=
  if !isIdentityAssignments assignments then .ok none
  else
    match source with
    | .exchange _ scope1 etype1 scheme1 _ _ [src1] =>
      if scope1 ≠ .LOCAL then .ok none
      else if !isRoundRobinPartitionOf etype1 scheme1 then .ok none
      else
        match src1 with
        | .limitN limitId count step limitSource =>
          match limitSource with
          | .exchange _ scope2 _ _ _ _ [src2] =>
            if scope2 ≠ .LOCAL then .ok none
            else
              match src2 with
              | .filterN _ predicate filterSource =>
                match filterSource with
                | .exchange _ scope3 _ _ _ _ [src3] =>
                  if scope3 ≠ .LOCAL then .ok none
                  else
                    match src3 with
                    | .rowNumberN _ rowNumberVariable rowNumberSource =>
                      match offsetConstant predicate rowNumberVariable with
                      | none => .ok none
                      | some offset =>
                        if assignments.any fun entry =>
                            equal entry.2 rowNumberVariable then
                          .ok none
                        else do
                          let sourceV ← toVeloxQueryPlan tid rowNumberSource
                          .ok (some (.project id (getNames assignments)
                            (getProjections assignments)
                            (.limitNode limitId offset count
                              (step == .PARTIAL) sourceV)))
                    | _ => .ok none
                | _ => .ok none
              | _ => .ok none
          | _ => .ok none
        | _ => .ok none
    | _ => .ok none
termination_by sizeOf source
decreasing_by all_goals first | (simp_wf; omega) | simp_wf | omega

end

/-! ## Table and column handle translation -/

/-- Wire column type (protocol::ColumnType). -/
inductive PColumnType
  | PARTITION_KEY
  | REGULAR
  | SYNTHESIZED
  | AGGREGATED
deriving Repr, DecidableEq

/-- Internal hive column type (velox HiveColumnHandle::ColumnType). -/
inductive HiveColumnTypeV
  | kPartitionKey
  | kRegular
  | kSynthesized
deriving Repr, DecidableEq

/-- toHiveColumnType in the source: unrecognized wire column types are
unsupported. -/
def toHiveColumnType (t : PColumnType) : Conv HiveColumnTypeV :=
  match t with
  | .PARTITION_KEY => .ok .kPartitionKey
  | .REGULAR => .ok .kRegular
  | .SYNTHESIZED => .ok .kSynthesized
  | .AGGREGATED => .error (.unsupported "Unsupported Hive column type")

/-- A wire hive column handle (protocol::HiveColumnHandle). -/
structure HiveColumnHandleW where
  name : String
  columnType : PColumnType
  typeSignature : String
  requiredSubfields : List String
deriving Repr, DecidableEq

/-- The wire column handle variants (protocol::ColumnHandle subtypes). -/
inductive ColumnHandleW
  | hiveCol (h : HiveColumnHandleW)
  | tpchCol (columnName : String)
  | otherCol (tag : String)
deriving Repr, DecidableEq

/-- The internal column handle variants (velox HiveColumnHandle and
TpchColumnHandle). -/
inductive ColumnHandleV
  | hiveColumn (name : String) (columnType : HiveColumnTypeV) (typ : VType)
      (requiredSubfields : List String)
  | tpchColumn (columnName : String)
deriving Repr, DecidableEq

/-- toColumnHandle in the source: the runtime-type dispatch over wire
column handle variants; unrecognized variants are unsupported. -/
def toColumnHandle (column : ColumnHandleW) : Conv ColumnHandleV :=
  match column with
  | .hiveCol h => do
    let ct ← toHiveColumnType h.columnType
    .ok (.hiveColumn h.name ct (stringToType h.typeSignature)
      h.requiredSubfields)
  | .tpchCol columnName => .ok (.tpchColumn columnName)
  | .otherCol _ => .error (.unsupported "Unsupported column handle type")

/-- A wire hive table layout handle (protocol::HiveTableLayoutHandle):
the pushdown flag, the partition columns, the per-column domain
predicates, and the remaining predicate expression. -/
structure HiveTableLayoutHandleW where
  pushdownFilterEnabled : Bool
  partitionColumns : List HiveColumnHandleW
  domains : List (String × Domain)
  remainingPredicate : RowExpression
deriving Repr

/-- A wire tpch table layout handle. The scale factor travels as a double
and is kept as its undecoded constant block. -/
structure TpchTableLayoutHandleW where
  tableName : String
  scaleFactorBlock : Block
deriving Repr, DecidableEq

/-- The wire connector table layout variants dispatched on by
toConnectorTableHandle. -/
inductive LayoutW
  | hiveLayout (h : HiveTableLayoutHandleW)
  | tpchLayout (t : TpchTableLayoutHandleW)
  | otherLayout (tag : String)
deriving Repr

/-- The wire connector handle variants (protocol::HiveTableHandle and
others kept abstract). -/
inductive ConnectorHandleW
  | hiveTable (schemaName : String) (tableName : String)
  | otherConnector (tag : String)
deriving Repr, DecidableEq

/-- A wire table handle (protocol::TableHandle). -/
structure TableHandleW where
  connectorId : String
  connectorHandle : ConnectorHandleW
  connectorTableLayout : LayoutW
deriving Repr

/-- The internal hive table handle built by the translation (velox
HiveTableHandle constructor arguments). -/
structure HiveTableHandleV where
  connectorId : String
  tableName : String
  filterPushdownEnabled : Bool
  subfieldFilters : List (String × Filter)
  remainingFilter : Option TypedExpr

/-- The internal connector table handle variants. -/
inductive ConnectorTableHandleV
  | hive (h : HiveTableHandleV)
  | tpch (connectorId : String) (table : String) (scaleFactorBlock : Block)

/-- toConnectorTableHandle in the source: hive layouts require filter
pushdown to be enabled (VELOX_CHECK), compile one filter per column
domain, translate the remaining predicate (dropping a literal-true one and
rejecting a literal-false one), and build the internal hive handle; tpch
layouts build a tpch handle; other layouts are unsupported. The second
component of the result is the partition-columns map the C++ fills through
its output parameter. -/
def toConnectorTableHandle (tableHandle : TableHandleW) :
    Conv (ConnectorTableHandleV × List (String × ColumnHandleV)) :=
  match tableHandle.connectorTableLayout with
  | .hiveLayout hiveLayout =>
    if !hiveLayout.pushdownFilterEnabled then
      .error
        (.invariant "Table scan with filter pushdown disabled is not supported")
    else do
      let partitionColumns ← hiveLayout.partitionColumns.mapM fun c => do
        let h ← toColumnHandle (.hiveCol c)
        pure (c.name, h)
      let subfieldFilters ← hiveLayout.domains.mapM fun d => do
        let f ← toFilter d.2
        pure (d.1, f)
      let converted := toVeloxExpr hiveLayout.remainingPredicate
      let remainingFilter : Option TypedExpr ←
        match converted with
        | .constantExpr t b =>
          if toBooleanB b then pure none
          else .error (.invariant "Unexpected always-false remaining predicate")
        | e => pure (some e)
      match tableHandle.connectorHandle with
      | .hiveTable schemaName tableName =>
        let fullName := if schemaName = "" then tableName
          else schemaName ++ "." ++ tableName
        .ok (.hive ⟨tableHandle.connectorId, fullName, true,
          subfieldFilters, remainingFilter⟩, partitionColumns)
      | .otherConnector _ =>
        .error (.invariant "hiveTableHandle is null")
  | .tpchLayout t =>
    .ok (.tpch tableHandle.connectorId t.tableName t.scaleFactorBlock, [])
  | .otherLayout _ =>
    .error (.unsupported "Unsupported TableHandle type")

/-! ## Fragment assembly -/

/-- Wire stage execution strategy (protocol::StageExecutionStrategy). -/
inductive StageExecutionStrategy
  | UNGROUPED_EXECUTION
  | FIXED_LIFESPAN_SCHEDULE_GROUPED_EXECUTION
  | DYNAMIC_LIFESPAN_SCHEDULE_GROUPED_EXECUTION
  | RECOVERABLE_GROUPED_EXECUTION
deriving Repr, DecidableEq

/-- Internal execution strategy (velox core::ExecutionStrategy). -/
inductive ExecutionStrategy
  | kUngrouped
  | kGrouped
deriving Repr, DecidableEq

/-- toStrategy in the source: recoverable grouped execution is
unsupported. -/
def toStrategy (s : StageExecutionStrategy) : Conv ExecutionStrategy :=
  match s with
  | .UNGROUPED_EXECUTION => .ok .kUngrouped
  | .FIXED_LIFESPAN_SCHEDULE_GROUPED_EXECUTION => .ok .kGrouped
  | .DYNAMIC_LIFESPAN_SCHEDULE_GROUPED_EXECUTION => .ok .kGrouped
  | .RECOVERABLE_GROUPED_EXECUTION =>
    .error
      (.unsupported
        "RECOVERABLE_GROUPED_EXECUTION Stage Execution Strategy is not supported")

/-- Wire stage execution descriptor fields used by the assembler. -/
structure StageExecutionDescriptor where
  stageExecutionStrategy : StageExecutionStrategy
  totalLifespans : Int
  groupedExecutionScanNodes : List String
deriving Repr, DecidableEq

/-- A wire plan fragment (protocol::PlanFragment fields used by the
assembler). -/
structure PlanFragmentW where
  root : PlanNode
  partitioningScheme : PartitioningScheme
  stageExecutionDescriptor : StageExecutionDescriptor
deriving Repr

/-- The internal plan fragment (velox core::PlanFragment). -/
structure CorePlanFragment where
  planNode : CorePlanNode
  executionStrategy : ExecutionStrategy
  numSplitGroups : Int
  groupedExecutionLeafNodeIds : List String
deriving Repr

/-- exprToChannel in the source: a field access resolves to its column
index, a constant resolves to the constant-channel marker, anything else
is a checked failure. -/
def exprToChannel (expr : TypedExpr) (rowType : RowTypeL) : Conv Channel :=
  match expr with
  | .fieldAccess _ n => do
    let i ← getChildIdx rowType n
    pure (.ch i)
  | .constantExpr _ _ => .ok .constantChannel
  | .callExpr _ _ _ =>
    .error (.invariant "Expression must be field access or constant")

/-- The key-channel resolution loop of the fragment assembler: resolves
each partitioning key to a channel, collecting the constant blocks of
constant channels. -/
def resolveChannels (keys : List TypedExpr) (inputType : RowTypeL) :
    Conv (List Channel × List Block) :=
  keys.foldlM
    (fun (st : List Channel × List Block) expr => do
      let c ← exprToChannel expr inputType
      match c with
      | .constantChannel =>
        match expr with
        | .constantExpr _ b => pure (st.1 ++ [c], st.2 ++ [b])
        | _ => .error (.invariant "Expected constant expression")
      | .ch _ => pure (st.1 ++ [c], st.2))
    ([], [])

/-- Size of the bucket-to-partition mapping (the C++ dereferences the
optional mapping without a check; an absent mapping is undefined behavior
in the source and is modelled as a checked failure). -/
def bucketToPartitionSize (scheme : PartitioningScheme) : Conv Int :=
  match scheme.bucketToPartition with
  | some l => .ok (Int.ofNat l.length)
  | none => .error (.invariant "bucketToPartition dereferenced while absent")

/-- The root partitioned-output emission of the fragment assembler (the
partitioning-handle dispatch at the end of the PlanFragment overload of
toVeloxQueryPlan in the source). -/
def emitPartitionedOutput (scheme : PartitioningScheme)
    (partitioningKeys : List TypedExpr) (keyChannels : List Channel)
    (constValues : List Block) (inputType : RowTypeL)
    (outputType : RowTypeL) (sourceNode : CorePlanNode) :
    Conv CorePlanNode :=
  match scheme.handle with
  | .system partitioning function =>
    match partitioning with
    | .SINGLE =>
      if function == .SINGLE then
        .ok (.partitionedOutputSingle "root" outputType sourceNode)
      else .error (.invariant "Unsupported partitioning function")
    | .FIXED =>
      match function with
      | .ROUND_ROBIN => do
        let numPartitions ← bucketToPartitionSize scheme
        if numPartitions = 1 then
          .ok (.partitionedOutputSingle "root" outputType sourceNode)
        else
          .ok (.partitionedOutput "root" partitioningKeys numPartitions
            scheme.replicateNullsAndAny .roundRobinSpec outputType
            sourceNode)
      | .HASH => do
        let numPartitions ← bucketToPartitionSize scheme
        if numPartitions = 1 then
          .ok (.partitionedOutputSingle "root" outputType sourceNode)
        else
          .ok (.partitionedOutput "root" partitioningKeys numPartitions
            scheme.replicateNullsAndAny
            (.hashSpec inputType keyChannels constValues) outputType
            sourceNode)
      | .BROADCAST =>
        .ok (.partitionedOutputBroadcast "root" 1 outputType sourceNode)
      | _ => .error (.unsupported "Unsupported partitioning function")
    | .COORDINATOR_ONLY =>
      .error (.invariant "Unsupported kind of SystemPartitioning")
  | .hivePart bucketCount bucketFunctionType => do
    let b2p ←
      match scheme.bucketToPartition with
      | some l => pure l
      | none =>
        .error (.invariant "bucketToPartition dereferenced while absent")
    let maxEntry ←
      match b2p.max? with
      | some m => pure m
      | none =>
        .error (.invariant "max_element of an empty bucketToPartition")
    let numPartitions := maxEntry + 1
    if numPartitions = 1 then
      .ok (.partitionedOutputSingle "root" outputType sourceNode)
    else if bucketFunctionType ≠ .HIVE_COMPATIBLE then
      .error (.unsupported "Unsupported Hive bucket function type")
    else
      .ok (.partitionedOutput "root" partitioningKeys numPartitions
        scheme.replicateNullsAndAny
        (.hiveSpec bucketCount b2p keyChannels constValues) outputType
        sourceNode)
  | .otherPart _ =>
    .error (.unsupported "Unsupported partitioning handle")

/-- The dynamic cast of a wire plan node to an Output node used by the
fragment assembler. -/
def asOutputNode (node : PlanNode) :
    Option (String × List VariableRef × PlanNode) :=
  match node with
  | .outputN id outputVariables source => some (id, outputVariables, source)
  | _ => none

/-- The fragment assembler (the PlanFragment overload of toVeloxQueryPlan
in the source): resolves the execution strategy, requires a non-empty
grouped-execution leaf set under a grouped strategy, stops at an Output
root, and otherwise attaches the root partitioned-output node derived
from the partitioning scheme. -/
def toVeloxQueryPlanFragment (tid : TaskIdM) (fragment : PlanFragmentW) :
    Conv CorePlanFragment := do
  let strategy ←
    toStrategy fragment.stageExecutionDescriptor.stageExecutionStrategy
  let numSplitGroups := fragment.stageExecutionDescriptor.totalLifespans
  let leafIds := fragment.stageExecutionDescriptor.groupedExecutionScanNodes
  if strategy == .kGrouped && leafIds.isEmpty then
    .error
      (.invariant
        "groupedExecutionScanNodes cannot be empty if stage execution strategy is grouped execution")
  else
    match asOutputNode fragment.root with
    | some _ => do
      let planNode ← toVeloxQueryPlan tid fragment.root
      .ok ⟨planNode, strategy, numSplitGroups, leafIds⟩
    | none => do
      let scheme := fragment.partitioningScheme
      let partitioningKeys ← toTypedExprsW scheme.arguments
      let sourceNode ← toVeloxQueryPlan tid fragment.root
      let inputType := sourceNode.outputType
      let resolved ← resolveChannels partitioningKeys inputType
      let outputType := toRowTypeL scheme.outputLayout
      let planNode ← emitPartitionedOutput scheme partitioningKeys
        resolved.1 resolved.2 inputType outputType sourceNode
      .ok ⟨planNode, strategy, numSplitGroups, leafIds⟩

/-- True exactly for a single partitioned-output node. -/
def isSingleOutput (node : CorePlanNode) : Bool :=
  match node with
  | .partitionedOutputSingle _ _ _ => true
  | _ => false

/-! ## Concrete fixtures shared by witnesses and counterexamples -/

/-- A fixed task id for concrete evaluations. -/
def tid0 : TaskIdM := ⟨0, 0⟩

/-- A bigint column variable. -/
def vx : VariableRef := ⟨"x", "bigint"⟩

/-- A row-number variable. -/
def vrn : VariableRef := ⟨"rn", "bigint"⟩

/-- An identity assignment list projecting only the column x. -/
def idAsgs : List (VariableRef × RowExpression) := [(vx, .varExpr vx)]

/-- The predicate rn greater-than 5 with a bigint literal. -/
def gtPred : RowExpression :=
  .call "boolean" (.builtin .SCALAR "presto.default.$operator$greater_than")
    [.varExpr vrn, .constant "bigint" (.intVal 5)]

/-- A round-robin fixed-partitioning scheme. -/
def rrScheme : PartitioningScheme :=
  ⟨.system .FIXED .ROUND_ROBIN, [], [vx, vrn], none, false⟩

/-- A hash fixed-partitioning scheme. -/
def hashScheme : PartitioningScheme :=
  ⟨.system .FIXED .HASH, [], [vx, vrn], none, false⟩

/-- A single-partitioning scheme as carried by gathering exchanges. -/
def singleScheme : PartitioningScheme :=
  ⟨.system .SINGLE .SINGLE, [], [vx, vrn], none, false⟩

/-- A trivial values source node. -/
def rnSource0 : PlanNode := .valuesN "v" [vx] []

/-- The seven-node offset/limit chain under the Project node with the
given filter predicate, and with the exchanges above and below the Filter
given by the scheme and type parameters. -/
def offsetChainWith (pred : RowExpression) (t2 : ExchangeType)
    (s2 : PartitioningScheme) (t3 : ExchangeType)
    (s3 : PartitioningScheme) : PlanNode :=
  .exchange "e1" .LOCAL .REPARTITION rrScheme none []
    [.limitN "l" 10 .FINAL
      (.exchange "e2" .LOCAL t2 s2 none []
        [.filterN "f" pred
          (.exchange "e3" .LOCAL t3 s3 none []
            [.rowNumberN "rn" vrn rnSource0])])]

/-- The seven-node offset/limit chain with the row-number comparison
predicate. -/
def offsetChain (t2 : ExchangeType) (s2 : PartitioningScheme)
    (t3 : ExchangeType) (s3 : PartitioningScheme) : PlanNode :=
  offsetChainWith gtPred t2 s2 t3 s3

/-- A wire range holding the single integer point v with inclusive
bounds. -/
def exactIntRange (v : Int) : PRange :=
  ⟨⟨some (.intVal v), .EXACTLY⟩, ⟨some (.intVal v), .EXACTLY⟩⟩

/-- A wire range over the inclusive integer interval from lo to hi. -/
def intRange (lo hi : Int) : PRange :=
  ⟨⟨some (.intVal lo), .EXACTLY⟩, ⟨some (.intVal hi), .EXACTLY⟩⟩

/-! ## Claim C10 -/

/-- Auxiliary: the bitwise or of a multiple of a power of two with a value
below that power is their sum. -/
lemma lor_mul_pow_eq_add (n a b : Nat) (h : b < 2 ^ n) :
    (a * 2 ^ n) ||| b = a * 2 ^ n + b := by
  induction n generalizing b with
  | zero =>
    have hb : b = 0 := by omega
    subst hb
    simp
  | succ n ih =>
    have hpow : 2 ^ (n + 1) = 2 * 2 ^ n := by rw [Nat.pow_succ]; ring
    have hx : a * 2 ^ (n + 1) = 2 * (a * 2 ^ n) := by rw [hpow]; ring
    have hb2 : b / 2 < 2 ^ n := by omega
    have key := ih (b / 2) hb2
    have hdiv : (a * 2 ^ (n + 1) ||| b) / 2 = a * 2 ^ n ||| b / 2 := by
      rw [Nat.or_div_two]
      congr 1
      omega
    have hmod : (a * 2 ^ (n + 1) ||| b) % 2 = b % 2 := by
      have h1 := Nat.or_mod_two_eq_one (a := a * 2 ^ (n + 1)) (b := b)
      omega
    have total := Nat.div_add_mod (a * 2 ^ (n + 1) ||| b) 2
    omega

/-- C10: for every AssignUniqueId translation with stage id s and task
number t, the computed unique-id equals the low 10 bits of s concatenated
above the low 14 bits of t, that is (s mod 2 to-the 10) times 2 to-the 14
plus (t mod 2 to-the 14), and therefore always fits in 24 bits. -/
theorem c10_assign_unique_id_prefix (s t : Nat) :
    taskUniqueId s t = s % 2 ^ 10 * 2 ^ 14 + t % 2 ^ 14 ∧
      taskUniqueId s t < 2 ^ 24 := by
  have h1 : (1 <<< 10 - 1 : Nat) = 2 ^ 10 - 1 := by decide
  have h2 : (1 <<< 14 - 1 : Nat) = 2 ^ 14 - 1 := by decide
  have hs := Nat.and_pow_two_sub_one_eq_mod s 10
  have ht := Nat.and_pow_two_sub_one_eq_mod t 14
  have hlt : t % 2 ^ 14 < 2 ^ 14 := Nat.mod_lt _ (by norm_num)
  have hmain : taskUniqueId s t = s % 2 ^ 10 * 2 ^ 14 + t % 2 ^ 14 := by
    unfold taskUniqueId
    rw [h1, h2, hs, ht, Nat.shiftLeft_eq,
      lor_mul_pow_eq_add 14 (s % 2 ^ 10) (t % 2 ^ 14) hlt]
  refine ⟨hmain, ?_⟩
  rw [hmain]
  have hslt : s % 2 ^ 10 < 2 ^ 10 := Nat.mod_lt _ (by norm_num)
  have e10 : (2 : Nat) ^ 10 = 1024 := by norm_num
  have e14 : (2 : Nat) ^ 14 = 16384 := by norm_num
  have e24 : (2 : Nat) ^ 24 = 16777216 := by norm_num
  rw [e10, e14, e24]
  omega

/-! ## Claim C9 -/

/-- C9: for every domain whose value set is an enumerated-equality set
with zero entries, the filter compiler does not fail: it returns an
is-null filter when the domain allows nulls and an is-not-null filter when
it does not; only a non-empty enumerated-equality set fails with
UnsupportedConstruct. -/
theorem c9_equatable_empty (entries : List Block) (na : Bool) :
    toFilter ⟨.equatableValueSet entries, na⟩ =
      if entries.isEmpty then .ok (if na then .isNull else .isNotNull)
      else .error (.unsupported
        "EquatableValueSet with non-empty entries to Velox filter conversion is not supported yet.") := by
  cases entries <;> cases na <;> rfl

/-! ## Claim C8 -/

/-- The boolean domain with the single double-bounded range carrying the
value true on both sides. -/
def c8CexDomain : Domain :=
  ⟨.sortedRangeSet .booleanT
    [⟨⟨some (.boolVal true), .EXACTLY⟩, ⟨some (.boolVal true), .EXACTLY⟩⟩],
    false⟩

/-- C8 counterexample: a boolean-typed domain containing a double-bounded
range whose two sides carry the same value compiles successfully to a
constant-boolean filter, so the claim that every double-bounded boolean
range fails with InvariantViolation is false. -/
theorem c8_counterexample :
    toFilter c8CexDomain = .ok (.boolValue true false) ∧
      isInvariantFailure (toFilter c8CexDomain) = false :=
  ⟨rfl, rfl⟩

/-- C8 amended: for every boolean-typed domain whose single range carries
a value on both sides, the filter compiler fails with InvariantViolation
exactly when the two values differ; when they agree it returns the
constant-boolean filter for that value. -/
theorem c8_bool_double_bounded (a b : Bool) (b1 b2 : PBound) (na : Bool) :
    toFilter ⟨.sortedRangeSet .booleanT
        [⟨⟨some (.boolVal a), b1⟩, ⟨some (.boolVal b), b2⟩⟩], na⟩ =
      if a == b then .ok (.boolValue a na)
      else .error (.invariant
        "Boolean range should not be FALSE, TRUE after coordinator optimization.") := by
  cases a <;> cases b <;> cases b1 <;> cases b2 <;> cases na <;> rfl

/-! ## Claim C7 -/

/-- A hive table handle whose layout has filter pushdown disabled. -/
def c7CexHandle : TableHandleW :=
  ⟨"hive", .hiveTable "" "t",
    .hiveLayout ⟨false, [], [], .constant "boolean" (.boolVal true)⟩⟩

/-- C7 counterexample: a storage-connector table handle whose layout has
filter pushdown disabled fails through a runtime check (InvariantViolation
in the spec vocabulary), not through an UnsupportedConstruct error, so the
claim naming UnsupportedConstruct is false at this input. -/
theorem c7_counterexample :
    toConnectorTableHandle c7CexHandle =
        .error (.invariant
          "Table scan with filter pushdown disabled is not supported") ∧
      isUnsupportedFailure (toConnectorTableHandle c7CexHandle) = false :=
  ⟨rfl, rfl⟩

/-- C7 amended: for every storage-connector (hive) table handle whose
layout has filter pushdown disabled, the table handle translation always
fails fatally — with an InvariantViolation (runtime check) rather than an
UnsupportedConstruct error — and produces no partial internal table
handle. -/
theorem c7_pushdown_disabled_fails (w : TableHandleW)
    (h : HiveTableLayoutHandleW)
    (hlay : w.connectorTableLayout = .hiveLayout h)
    (hpd : h.pushdownFilterEnabled = false) :
    toConnectorTableHandle w =
      .error (.invariant
        "Table scan with filter pushdown disabled is not supported") := by
  obtain ⟨cid, ch, layout⟩ := w
  simp only at hlay
  subst hlay
  simp [toConnectorTableHandle, hpd]

/-- C7 witness: the amended theorem applied at the concrete disabled
layout. -/
theorem c7_witness :
    toConnectorTableHandle c7CexHandle =
      .error (.invariant
        "Table scan with filter pushdown disabled is not supported") :=
  c7_pushdown_disabled_fails c7CexHandle
    ⟨false, [], [], .constant "boolean" (.boolVal true)⟩ rfl rfl

/-! ## Claim C5 -/

/-- Membership in a concrete integer list coincides with the contains
test used by value-set filters. -/
lemma int_contains_iff (l : List Int) (x : Int) :
    l.contains x = true ↔ x ∈ l := by
  induction l with
  | nil => simp
  | cons a t ih =>
    simp only [List.contains_cons, Bool.or_eq_true, beq_iff_eq, ih,
      List.mem_cons]

/-- C5: for every integer-typed domain whose range list has more than one
range and consists solely of single-point ranges, the filter compiler
emits a value-set filter that accepts exactly those point values and
rejects every other integer, and accepts null exactly when the domain
allows nulls. -/
theorem c5_single_point_values (k : VType) (r0 r1 : PRange)
    (rs : List PRange) (na : Bool) (pts : List Int)
    (hk : isIntegerTypeKind k = true)
    (hpts : ∀ r ∈ r0 :: r1 :: rs,
      (bigintRangeToFilter r).lower = (bigintRangeToFilter r).upper)
    (hdef : pts = (r0 :: r1 :: rs).map fun r => (bigintRangeToFilter r).lower) :
    toFilter ⟨.sortedRangeSet k (r0 :: r1 :: rs), na⟩ =
        .ok (createBigintValues pts na) ∧
      (∀ x : Int,
        evalSome (createBigintValues pts na) x = true ↔ x ∈ pts) ∧
      evalNull (createBigintValues pts na) = na := by
  have hall : ((r0 :: r1 :: rs).map bigintRangeToFilter).all
      (·.isSingleValue) = true := by
    rw [List.all_eq_true]
    intro f hf
    rw [List.mem_map] at hf
    obtain ⟨r, hr, rfl⟩ := hf
    simpa [BigintR.isSingleValue] using hpts r hr
  refine ⟨?_, ?_, rfl⟩
  · have hstep : toFilter ⟨.sortedRangeSet k (r0 :: r1 :: rs), na⟩ =
        .ok (combineIntegerRanges ((r0 :: r1 :: rs).map bigintRangeToFilter)
          na) := by
      cases k <;> simp [isIntegerTypeKind] at hk ⊢ <;> rfl
    rw [hstep]
    simp only [combineIntegerRanges, hall, if_true]
    rw [hdef, List.map_map]
    rfl
  · intro x
    simpa [createBigintValues, evalSome] using int_contains_iff pts x

/-- C5 witness: the theorem applied at the two-point bigint domain with
points 1 and 3 and nulls allowed. -/
theorem c5_witness :
    toFilter ⟨.sortedRangeSet .bigintT [exactIntRange 1, exactIntRange 3],
        true⟩ =
        .ok (createBigintValues [1, 3] true) ∧
      (∀ x : Int,
        evalSome (createBigintValues [1, 3] true) x = true ↔ x ∈ [1, 3]) ∧
      evalNull (createBigintValues [1, 3] true) = true :=
  c5_single_point_values .bigintT (exactIntRange 1) (exactIntRange 3) []
    true [1, 3] rfl (by decide) (by decide)

/-! ## Claim C6

The hypotheses formalize the tiling shape of the claim: consecutive
converted ranges sit exactly two apart (one isolated rejected integer
between them), the first range starts at or one above the int64 minimum,
every range is non-empty, and the last range ends at the int64 maximum. -/

/-- The list of ranges follows the given upper bound with single-integer
gaps: each range starts exactly two above the previous upper bound. -/
def ChainedFrom : Int → List BigintR → Prop
  | _, [] => True
  | u, f :: rest => f.lower = u + 2 ∧ ChainedFrom f.upper rest

/-- Upper bound of the last range, when the list is non-empty. -/
def lastUpper? : List BigintR → Option Int
  | [] => none
  | [f] => some f.upper
  | _ :: rest => lastUpper? rest

/-- The isolated integers between consecutive ranges: one above each
upper bound except the last. -/
def gapValues (fs : List BigintR) : List Int :=
  fs.dropLast.map fun f => f.upper + 1

/-- Brute-force any-range-matches evaluation over converted integer
ranges. -/
def anyContains (fs : List BigintR) (x : Int) : Bool :=
  fs.any fun f => decide (f.lower ≤ x) && decide (x ≤ f.upper)

/-- Unfolding of anyContains over a cons cell. -/
lemma anyContains_cons (f : BigintR) (fs : List BigintR) (x : Int) :
    anyContains (f :: fs) x =
      ((decide (f.lower ≤ x) && decide (x ≤ f.upper)) || anyContains fs x) := by
  simp [anyContains]

/-- Every range in a chain starts at least two above the starting upper
bound. -/
lemma chainedFrom_lower_ge (u : Int) (gs : List BigintR)
    (hch : ChainedFrom u gs) (hok : ∀ f ∈ gs, f.lower ≤ f.upper) :
    ∀ f ∈ gs, u + 2 ≤ f.lower := by
  induction gs generalizing u with
  | nil => intro f hf; simp at hf
  | cons g t ih =>
    obtain ⟨h1, h2⟩ := hch
    intro f hf
    rcases List.mem_cons.mp hf with rfl | hf
    · omega
    · have hg := hok g (by simp)
      have := ih g.upper h2 (fun f hf => hok f (by simp [hf])) f hf
      omega

/-- Every upper bound in a chain is at most the last upper bound. -/
lemma chainedFrom_upper_le_last (u v : Int) (gs : List BigintR)
    (hch : ChainedFrom u gs) (hok : ∀ f ∈ gs, f.lower ≤ f.upper)
    (hlast : lastUpper? gs = some v) :
    ∀ f ∈ gs, f.upper ≤ v := by
  induction gs generalizing u with
  | nil => intro f hf; simp at hf
  | cons g t ih =>
    obtain ⟨h1, h2⟩ := hch
    intro f hf
    cases t with
    | nil =>
      rcases List.mem_cons.mp hf with rfl | hf
      · simp [lastUpper?] at hlast
        omega
      · simp at hf
    | cons g2 t2 =>
      have hlast2 : lastUpper? (g2 :: t2) = some v := hlast
      have hrest := ih g.upper h2 (fun f hf => hok f (by simp [hf])) hlast2
      rcases List.mem_cons.mp hf with rfl | hf
      · have hg2 := hrest g2 (by simp)
        have hg2ok := hok g2 (by simp)
        have hg2l : g2.lower = f.upper + 2 := h2.1
        omega
      · exact hrest f hf

/-- Values below the start of a chained list are contained in no range. -/
lemma anyContains_eq_false_of_lt_head (f : BigintR) (rest : List BigintR)
    (hch : ChainedFrom f.upper rest)
    (hok : ∀ g ∈ f :: rest, g.lower ≤ g.upper)
    (x : Int) (hx : x < f.lower) :
    anyContains (f :: rest) x = false := by
  have hfok := hok f (by simp)
  rw [anyContains_cons]
  have h1 : (decide (f.lower ≤ x) && decide (x ≤ f.upper)) = false := by
    simp
    omega
  have h2 : anyContains rest x = false := by
    rw [anyContains]
    rw [List.any_eq_false]
    intro g hg
    have := chainedFrom_lower_ge f.upper rest hch
      (fun g hg => hok g (by simp [hg])) g hg
    simp
    omega
  rw [h1, h2]
  rfl

/-- Every gap value of a chained list sits at least three above the
starting upper bound. -/
lemma gapValues_ge (u : Int) (gs : List BigintR)
    (hch : ChainedFrom u gs) (hok : ∀ f ∈ gs, f.lower ≤ f.upper) :
    ∀ y ∈ gapValues gs, u + 3 ≤ y := by
  intro y hy
  rw [gapValues, List.mem_map] at hy
  obtain ⟨f, hf, rfl⟩ := hy
  have hf2 : f ∈ gs := List.dropLast_subset gs hf
  have h1 := chainedFrom_lower_ge u gs hch hok f hf2
  have h2 := hok f hf2
  omega

/-- Behavior of the negated-value-set scan loop on a tiling chain whose
last range ends at the int64 maximum: the scan succeeds and collects
exactly the gap values. -/
lemma negLoop_spec (prev : BigintR) (gs : List BigintR) (acc : List Int)
    (hch : ChainedFrom prev.upper gs)
    (hok : ∀ f ∈ gs, f.lower ≤ f.upper)
    (hlast : lastUpper? gs = some int64Max) :
    negLoop prev gs acc = (true, true, acc ++ gapValues gs) := by
  induction gs generalizing prev acc with
  | nil => simp [lastUpper?] at hlast
  | cons f t ih =>
    obtain ⟨h1, h2⟩ := hch
    cases t with
    | nil =>
      have hfu : f.upper = int64Max := by
        simp [lastUpper?] at hlast
        omega
      rw [negLoop]
      rw [if_neg (by omega), if_pos hfu]
      simp [gapValues]
    | cons g t2 =>
      have hlast2 : lastUpper? (g :: t2) = some int64Max := hlast
      have hgl : g.lower = f.upper + 2 := h2.1
      have hgok := hok g (by simp)
      have hgub := chainedFrom_upper_le_last f.upper int64Max (g :: t2) h2
        (fun f hf => hok f (by simp [hf])) hlast2 g (by simp)
      have hfu : f.upper ≤ int64Max - 2 := by omega
      rw [negLoop]
      rw [if_neg (by omega), if_neg (by omega), if_neg (by omega)]
      have hrec := ih f (acc ++ [f.upper + 1]) h2
        (fun f hf => hok f (by simp [hf])) hlast2
      rw [hrec]
      have hgaps : gapValues (f :: g :: t2) =
          (f.upper + 1) :: gapValues (g :: t2) := by
        simp [gapValues]
      rw [hgaps]
      simp

/-- On a tiling chain reaching the int64 maximum, a value at or above the
first lower bound is contained in some range exactly when it is not one
of the gap values. -/
lemma anyContains_iff_not_mem_gaps (f : BigintR) (rest : List BigintR)
    (hch : ChainedFrom f.upper rest)
    (hok : ∀ g ∈ f :: rest, g.lower ≤ g.upper)
    (hlast : lastUpper? (f :: rest) = some int64Max)
    (x : Int) (hx1 : x ≤ int64Max) (hx2 : f.lower ≤ x) :
    (anyContains (f :: rest) x = true ↔ x ∉ gapValues (f :: rest)) := by
  induction rest generalizing f with
  | nil =>
    have hfu : f.upper = int64Max := by
      simp [lastUpper?] at hlast
      omega
    have hin : anyContains [f] x = true := by
      rw [anyContains_cons]
      simp [anyContains]
      omega
    rw [hin]
    simp [gapValues]
  | cons g t ih =>
    obtain ⟨hgl, hch2⟩ := hch
    have hfok := hok f (by simp)
    have hgok := hok g (by simp)
    have hlast2 : lastUpper? (g :: t) = some int64Max := hlast
    have hgaps : gapValues (f :: g :: t) =
        (f.upper + 1) :: gapValues (g :: t) := by
      simp [gapValues]
    by_cases hcase1 : x ≤ f.upper
    · have h1 : anyContains (f :: g :: t) x = true := by
        rw [anyContains_cons]
        have : (decide (f.lower ≤ x) && decide (x ≤ f.upper)) = true := by
          simp
          omega
        rw [this]
        rfl
      have h2 : x ∉ gapValues (f :: g :: t) := by
        rw [hgaps]
        intro hmem
        rcases List.mem_cons.mp hmem with heq | hmem2
        · omega
        · have := gapValues_ge f.upper (g :: t) ⟨hgl, hch2⟩
            (fun h hh => hok h (by simp [hh])) x hmem2
          omega
      rw [h1]
      simp [h2]
    · by_cases hcase2 : x = f.upper + 1
      · have h1 : anyContains (f :: g :: t) x = false := by
          rw [anyContains_cons]
          have ha : (decide (f.lower ≤ x) && decide (x ≤ f.upper)) = false := by
            simp
            omega
          have hb : anyContains (g :: t) x = false := by
            apply anyContains_eq_false_of_lt_head g t hch2
              (fun h hh => hok h (by simp [hh]))
            omega
          rw [ha, hb]
          rfl
        have h2 : x ∈ gapValues (f :: g :: t) := by
          rw [hgaps, hcase2]
          exact List.mem_cons_self _ _
        rw [h1]
        simp [h2]
      · have hxg : g.lower ≤ x := by omega
        have key := ih g hch2 (fun h hh => hok h (by simp [hh])) hlast2 hxg
        have ha : (decide (f.lower ≤ x) && decide (x ≤ f.upper)) = false := by
          simp
          omega
        rw [anyContains_cons, ha, Bool.false_or, hgaps]
        rw [key]
        constructor
        · intro hnot hmem
          rcases List.mem_cons.mp hmem with heq | hmem2
          · omega
          · exact hnot hmem2
        · intro hnot hmem
          exact hnot (List.mem_cons_of_mem _ hmem)

/-- On a tiling chain the negated-value-set path of combineIntegerRanges
is extensionally the brute-force any-range evaluation on every int64
value. -/
lemma negatedPath_equiv (f0 : BigintR) (rest : List BigintR) (na : Bool)
    (hrest : rest ≠ [])
    (hok : ∀ f ∈ f0 :: rest, f.lower ≤ f.upper)
    (hch : ChainedFrom f0.upper rest)
    (hfirst : f0.lower = int64Min ∨ f0.lower = int64Min + 1)
    (hlast : lastUpper? (f0 :: rest) = some int64Max)
    (x : Int) (hx1 : int64Min ≤ x) (hx2 : x ≤ int64Max) :
    evalSome (negatedPath (f0 :: rest) na) x = anyContains (f0 :: rest) x := by
  cases rest with
  | nil => exact absurd rfl hrest
  | cons r rest' =>
    have hlastR : lastUpper? (r :: rest') = some int64Max := hlast
    have hokR : ∀ f ∈ r :: rest', f.lower ≤ f.upper :=
      fun f hf => hok f (by simp [hf])
    have hf0ok := hok f0 (by simp)
    have hloop := negLoop_spec f0 (r :: rest')
      ((if f0.lower = int64Min + 1 then [int64Min] else []) ++
        [f0.upper + 1]) hch hokR hlastR
    have hgapsF : gapValues (f0 :: r :: rest') =
        (f0.upper + 1) :: gapValues (r :: rest') := by
      simp [gapValues]
    have hpath : negatedPath (f0 :: r :: rest') na =
        createNegatedBigintValues
          (((if f0.lower = int64Min + 1 then [int64Min] else []) ++
            [f0.upper + 1]) ++ gapValues (r :: rest')) na := by
      rw [negatedPath]
      rw [if_neg (by omega)]
      simp only [hloop]
    rw [hpath]
    have hevalR : ∀ R : List Int,
        evalSome (createNegatedBigintValues R na) x = !(R.contains x) :=
      fun R => rfl
    have hmem := anyContains_iff_not_mem_gaps f0 (r :: rest') hch hok hlast x hx2
    have hRdef :
        ((if f0.lower = int64Min + 1 then [int64Min] else []) ++
            [f0.upper + 1]) ++ gapValues (r :: rest') =
          (if f0.lower = int64Min + 1 then [int64Min] else []) ++
            gapValues (f0 :: r :: rest') := by
      rw [hgapsF]
      simp
    rw [hRdef]
    by_cases hc : f0.lower = int64Min + 1
    · rw [if_pos hc]
      simp only [List.singleton_append]
      by_cases hxmin : x = int64Min
      · have hAC : anyContains (f0 :: r :: rest') x = false := by
          apply anyContains_eq_false_of_lt_head f0 (r :: rest') hch hok
          omega
        have hCont : (int64Min :: gapValues (f0 :: r :: rest')).contains x
            = true := by
          rw [int_contains_iff]
          rw [hxmin]
          exact List.mem_cons_self _ _
        rw [hAC, hevalR, hCont]
        rfl
      · have hx2' : f0.lower ≤ x := by omega
        have hiff := hmem hx2'
        have hContIff : ((int64Min :: gapValues (f0 :: r :: rest')).contains x
            = true) ↔ x ∈ gapValues (f0 :: r :: rest') := by
          rw [int_contains_iff]
          simp [hxmin]
        rw [hevalR]
        cases hA : anyContains (f0 :: r :: rest') x
        · have hxg : x ∈ gapValues (f0 :: r :: rest') := by
            by_contra hno
            rw [← hiff] at hno
            simp [hA] at hno
          have := hContIff.mpr hxg
          rw [this]
          rfl
        · have hxg : x ∉ gapValues (f0 :: r :: rest') := hiff.mp hA
          have : (int64Min :: gapValues (f0 :: r :: rest')).contains x
              = false := by
            by_contra hcc
            simp only [Bool.not_eq_false] at hcc
            exact hxg (hContIff.mp hcc)
          rw [this]
          rfl
    · rw [if_neg hc]
      have hmin : f0.lower = int64Min := by
        rcases hfirst with h | h
        · exact h
        · exact absurd h hc
      have hx2' : f0.lower ≤ x := by omega
      have hiff := hmem hx2'
      rw [hevalR]
      simp only [List.nil_append]
      cases hA : anyContains (f0 :: r :: rest') x
      · have hxg : x ∈ gapValues (f0 :: r :: rest') := by
          by_contra hno
          rw [← hiff] at hno
          simp [hA] at hno
        rw [(int_contains_iff _ x).mpr hxg]
        rfl
      · have hxg : x ∉ gapValues (f0 :: r :: rest') := hiff.mp hA
        have : (gapValues (f0 :: r :: rest')).contains x = false := by
          by_contra hcc
          simp only [Bool.not_eq_false] at hcc
          exact hxg ((int_contains_iff _ x).mp hcc)
        rw [this]
        rfl

/-- On all-single-value range lists the value-set membership test equals
the brute-force any-range evaluation. -/
lemma contains_lowers_eq_anyContains (fs : List BigintR) (x : Int)
    (hs : fs.all (·.isSingleValue) = true) :
    ((fs.map (·.lower)).contains x) = anyContains fs x := by
  induction fs with
  | nil => rfl
  | cons f t ih =>
    rw [List.all_cons, Bool.and_eq_true] at hs
    obtain ⟨h1, h2⟩ := hs
    rw [BigintR.isSingleValue, beq_iff_eq] at h1
    rw [List.map_cons, List.contains_cons, anyContains_cons, ih h2]
    congr 1
    by_cases hx : x = f.lower
    · subst hx
      simp [← h1]
    · have hb : (x == f.lower) = false := by
        simp [hx]
      rw [hb]
      have : (decide (f.lower ≤ x) && decide (x ≤ f.upper)) = false := by
        simp
        omega
      rw [this]

/-- The full combineIntegerRanges output is extensionally the brute-force
any-range evaluation on every int64 value, for every tiling chain of two
or more non-empty ranges ending at the int64 maximum. -/
lemma combineIntegerRanges_equiv (f0 f1 : BigintR) (t : List BigintR)
    (na : Bool)
    (hok : ∀ f ∈ f0 :: f1 :: t, f.lower ≤ f.upper)
    (hch : ChainedFrom f0.upper (f1 :: t))
    (hfirst : f0.lower = int64Min ∨ f0.lower = int64Min + 1)
    (hlast : lastUpper? (f0 :: f1 :: t) = some int64Max)
    (x : Int) (hx1 : int64Min ≤ x) (hx2 : x ≤ int64Max) :
    evalSome (combineIntegerRanges (f0 :: f1 :: t) na) x =
      anyContains (f0 :: f1 :: t) x := by
  rw [combineIntegerRanges]
  by_cases hs : (f0 :: f1 :: t).all (·.isSingleValue) = true
  · rw [if_pos hs]
    have : evalSome (createBigintValues ((f0 :: f1 :: t).map (·.lower)) na)
        x = ((f0 :: f1 :: t).map (·.lower)).contains x := rfl
    rw [this, contains_lowers_eq_anyContains _ x hs]
  · rw [if_neg hs]
    cases t with
    | nil =>
      have harm : combineNonSingle [f0, f1] na =
          if f0.lower = int64Min && f1.upper = int64Max then
            .negatedBigintRange (f0.upper + 1) (f1.lower - 1) na
          else negatedPath [f0, f1] na := rfl
      rw [harm]
      have hup : f1.upper = int64Max := by
        simp [lastUpper?] at hlast
        omega
      have hchain : f1.lower = f0.upper + 2 := hch.1
      have hf0ok := hok f0 (by simp)
      have hf1ok := hok f1 (by simp)
      by_cases h1 : f0.lower = int64Min
      · have hcond : (f0.lower = int64Min && f1.upper = int64Max) = true := by
          simp [h1, hup]
        rw [if_pos hcond]
        rw [Bool.eq_iff_iff]
        simp only [evalSome, anyContains, List.any_cons, List.any_nil,
          Bool.or_false, Bool.or_eq_true, Bool.and_eq_true,
          decide_eq_true_eq, Bool.not_eq_true',
          Bool.and_eq_false_iff, decide_eq_false_iff_not]
        constructor
        · intro h
          rcases h with h | h <;> omega
        · intro h
          omega
      · have hcond : (f0.lower = int64Min && f1.upper = int64Max) = false := by
          simp [h1]
        rw [if_neg (by simp [hcond])]
        exact negatedPath_equiv f0 [f1] na (by simp) hok hch hfirst hlast x
          hx1 hx2
    | cons g t2 =>
      have harm : combineNonSingle (f0 :: f1 :: g :: t2) na =
          negatedPath (f0 :: f1 :: g :: t2) na := rfl
      rw [harm]
      exact negatedPath_equiv f0 (f1 :: g :: t2) na (by simp) hok hch hfirst
        hlast x hx1 hx2

/-- C6: for every integer-typed domain whose multiple converted ranges
tile the int64 space except for isolated rejected points (consecutive
range boundaries exactly one integer apart, the first range starting at
or one above the int64 minimum) and whose last range ends at the int64
maximum, the compiled filter accepts an input value exactly when some
range of the domain contains it — extensionally equivalent to the naive
any-range-matches evaluation on every int64 value, the two extremes
included. -/
theorem c6_tiling_equivalence (k : VType) (r0 r1 : PRange)
    (rs : List PRange) (na : Bool) (fs : List BigintR)
    (hk : isIntegerTypeKind k = true)
    (hfs : fs = (r0 :: r1 :: rs).map bigintRangeToFilter)
    (hok : ∀ f ∈ fs, f.lower ≤ f.upper)
    (hch : ChainedFrom (bigintRangeToFilter r0).upper
      ((r1 :: rs).map bigintRangeToFilter))
    (hfirst : (bigintRangeToFilter r0).lower = int64Min ∨
      (bigintRangeToFilter r0).lower = int64Min + 1)
    (hlast : lastUpper? fs = some int64Max) :
    toFilter ⟨.sortedRangeSet k (r0 :: r1 :: rs), na⟩ =
        .ok (combineIntegerRanges fs na) ∧
      ∀ x : Int, int64Min ≤ x → x ≤ int64Max →
        evalSome (combineIntegerRanges fs na) x = anyContains fs x := by
  subst hfs
  constructor
  · cases k <;> simp [isIntegerTypeKind] at hk ⊢ <;> rfl
  · intro x hx1 hx2
    simp only [List.map_cons] at hok hlast ⊢
    simp only [List.map_cons] at hch
    exact combineIntegerRanges_equiv (bigintRangeToFilter r0)
      (bigintRangeToFilter r1) (rs.map bigintRangeToFilter) na hok hch
      hfirst hlast x hx1 hx2

/-- C6 witness: the theorem applied to the two-range bigint domain
covering all of int64 except the single value 5, evaluated at the
rejected value itself. -/
theorem c6_witness :
    toFilter ⟨.sortedRangeSet .bigintT
        [intRange int64Min 4, intRange 6 int64Max], false⟩ =
        .ok (combineIntegerRanges
          [⟨int64Min, 4⟩, ⟨6, int64Max⟩] false) ∧
      evalSome (combineIntegerRanges [⟨int64Min, 4⟩, ⟨6, int64Max⟩] false)
          5 =
        anyContains [⟨int64Min, 4⟩, ⟨6, int64Max⟩] 5 :=
  have h := c6_tiling_equivalence .bigintT (intRange int64Min 4)
    (intRange 6 int64Max) [] false [⟨int64Min, 4⟩, ⟨6, int64Max⟩] rfl rfl
    (by decide) ⟨by decide, trivial⟩ (Or.inl (by decide)) (by decide)
  ⟨h.1, h.2 5 (by decide) (by decide)⟩

/-! ## Claim C1 -/

/-- C1: for every wire plan consisting of the seven-node offset/limit
chain — an identity Project dropping the row-number column, over a
round-robin single-source local exchange, over a Limit with count M, over
a single-source local exchange, over a Filter whose predicate is exactly
rowNumber greater-than a bigint constant c, over a single-source local
exchange, over a RowNumber node — the Project-node translation returns a
Project node whose single source is a Limit node with offset c and count
M, whose source is the translation of the RowNumber node source. -/
theorem c1_offset_limit_rewrite
    (tid : TaskIdM) (id e1id e2id e3id limitId fid rnid : String)
    (assignments : List (VariableRef × RowExpression))
    (e1t e2t e3t : ExchangeType)
    (e1s e2s e3s : PartitioningScheme)
    (e1o e2o e3o : Option (List OrderByW))
    (e1i e2i e3i : List (List VariableRef))
    (count : Int) (step : LimitNodeStep)
    (rnVar : VariableRef) (c : Int) (rnSrc : PlanNode)
    (inner : CorePlanNode)
    (hident : isIdentityAssignments assignments = true)
    (hdrop : (assignments.any fun entry => equal entry.2 rnVar) = false)
    (hrr : isRoundRobinPartitionOf e1t e1s = true)
    (hinner : toVeloxQueryPlan tid rnSrc = .ok inner) :
    toVeloxQueryPlan tid (.projectN id assignments
      (.exchange e1id .LOCAL e1t e1s e1o e1i
        [.limitN limitId count step
          (.exchange e2id .LOCAL e2t e2s e2o e2i
            [.filterN fid
              (.call "boolean"
                (.builtin .SCALAR "presto.default.$operator$greater_than")
                [.varExpr rnVar, .constant "bigint" (.intVal c)])
              (.exchange e3id .LOCAL e3t e3s e3o e3i
                [.rowNumberN rnid rnVar rnSrc])])])) =
      .ok (.project id (getNames assignments) (getProjections assignments)
        (.limitNode limitId c count (step == .PARTIAL) inner)) := by
  have htry : tryConvertOffsetLimit tid id assignments
      (.exchange e1id .LOCAL e1t e1s e1o e1i
        [.limitN limitId count step
          (.exchange e2id .LOCAL e2t e2s e2o e2i
            [.filterN fid
              (.call "boolean"
                (.builtin .SCALAR "presto.default.$operator$greater_than")
                [.varExpr rnVar, .constant "bigint" (.intVal c)])
              (.exchange e3id .LOCAL e3t e3s e3o e3i
                [.rowNumberN rnid rnVar rnSrc])])]) =
      .ok (some (.project id (getNames assignments)
        (getProjections assignments)
        (.limitNode limitId c count (step == .PARTIAL) inner))) := by
    have heq0 : equal (.varExpr rnVar) rnVar = true := by simp [equal]
    rw [tryConvertOffsetLimit]
    simp only [hident, Bool.not_true, if_false, Bool.not_false, if_true]
    simp only [hrr]
    simp [offsetConstant, isGreaterThan, isFunctionCall, heq0, toVeloxExpr,
      stringToType, toInt64B, hdrop, hinner, Bind.bind, Except.bind]
  simp only [toVeloxQueryPlan]
  rw [htry]
  rfl

/-- C1 witness: the theorem applied to a concrete chain with offset 5 and
count 10, with hash and gathering exchanges around the Filter. -/
theorem c1_witness :
    toVeloxQueryPlan tid0 (.projectN "p" idAsgs
      (offsetChain .REPARTITION hashScheme .GATHER singleScheme)) =
      .ok (.project "p" (getNames idAsgs) (getProjections idAsgs)
        (.limitNode "l" 5 10 (LimitNodeStep.FINAL == .PARTIAL)
          (.valuesNode "v" [("x", .bigintT)]))) :=
  c1_offset_limit_rewrite tid0 "p" "e1" "e2" "e3" "l" "f" "rn" idAsgs
    .REPARTITION .REPARTITION .GATHER rrScheme hashScheme singleScheme
    none none none [] [] [] 10 .FINAL vrn 5 rnSource0
    (.valuesNode "v" [("x", .bigintT)]) (by decide) (by decide) (by decide)
    (by simp [toVeloxQueryPlan, rnSource0, toRowTypeL, toRowTypeEx, vx,
      stringToType])

/-! ## Claim C2 -/

/-- C2 counterexample: the exact chain with the exchange between Limit
and Filter being hash fixed partitioning and the exchange below Filter
being a gathering single-partitioning exchange — both exchanges adjacent
to the Filter are not round-robin — still matches and is rewritten, so
the claim that a non-round-robin exchange wrapping Limit and Filter
yields no match is false. -/
theorem c2_counterexample :
    tryConvertOffsetLimit tid0 "p" idAsgs
        (offsetChain .REPARTITION hashScheme .GATHER singleScheme) =
        .ok (some (.project "p" ["x"] [.fieldAccess .bigintT "x"]
          (.limitNode "l" 5 10 false (.valuesNode "v" [("x", .bigintT)])))) ∧
      tryConvertOffsetLimit tid0 "p" idAsgs
          (offsetChain .REPARTITION hashScheme .GATHER singleScheme) ≠
        .ok none := by
  have hmain : tryConvertOffsetLimit tid0 "p" idAsgs
      (offsetChain .REPARTITION hashScheme .GATHER singleScheme) =
      .ok (some (.project "p" ["x"] [.fieldAccess .bigintT "x"]
        (.limitNode "l" 5 10 false
          (.valuesNode "v" [("x", .bigintT)])))) := by
    simp only [offsetChain, offsetChainWith]
    rw [tryConvertOffsetLimit]
    simp [idAsgs, isIdentityAssignments, equal, vx, vrn,
      isRoundRobinPartitionOf, rrScheme, hashScheme, singleScheme,
      offsetConstant, gtPred, isGreaterThan, isFunctionCall, toVeloxExpr,
      stringToType, toInt64B, toVeloxQueryPlan, rnSource0, toRowTypeL,
      toRowTypeEx, getNames, getProjections, Bind.bind, Except.bind]
  refine ⟨hmain, ?_⟩
  rw [hmain]
  intro h
  exact Option.noConfusion (Except.ok.inj h)

/-- C2 amended: the offset/limit rewrite returns no match — and generic
lowering of the Project node proceeds — when the projection is not an
identity projection, or when the local exchange that is the immediate
source of the Project is not round-robin fixed partitioning, or when the
chain is otherwise exact but the filter predicate is not exactly
rowNumber greater-than a bigint literal; the exchanges directly above and
below the Filter need only be single-source local exchanges. No case is
an error and no malformed plan is produced. -/
theorem c2_rewrite_no_match :
    (∀ (tid : TaskIdM) (id : String)
      (assignments : List (VariableRef × RowExpression))
      (source : PlanNode),
      isIdentityAssignments assignments = false →
        tryConvertOffsetLimit tid id assignments source = .ok none ∧
        toVeloxQueryPlan tid (.projectN id assignments source) =
          Except.map
            (CorePlanNode.project id (getNames assignments)
              (getProjections assignments))
            (toVeloxQueryPlan tid source)) ∧
    (∀ (tid : TaskIdM) (id e1id : String)
      (assignments : List (VariableRef × RowExpression))
      (e1t : ExchangeType) (e1s : PartitioningScheme)
      (e1o : Option (List OrderByW)) (e1i : List (List VariableRef))
      (child : PlanNode),
      isRoundRobinPartitionOf e1t e1s = false →
        tryConvertOffsetLimit tid id assignments
          (.exchange e1id .LOCAL e1t e1s e1o e1i [child]) = .ok none ∧
        toVeloxQueryPlan tid (.projectN id assignments
            (.exchange e1id .LOCAL e1t e1s e1o e1i [child])) =
          Except.map
            (CorePlanNode.project id (getNames assignments)
              (getProjections assignments))
            (toVeloxQueryPlan tid
              (.exchange e1id .LOCAL e1t e1s e1o e1i [child]))) ∧
    (∀ (tid : TaskIdM) (id e1id e2id e3id limitId fid rnid : String)
      (assignments : List (VariableRef × RowExpression))
      (e1t e2t e3t : ExchangeType) (e1s e2s e3s : PartitioningScheme)
      (e1o e2o e3o : Option (List OrderByW))
      (e1i e2i e3i : List (List VariableRef))
      (count : Int) (step : LimitNodeStep) (predicate : RowExpression)
      (rnVar : VariableRef) (rnSrc : PlanNode),
      offsetConstant predicate rnVar = none →
        tryConvertOffsetLimit tid id assignments
          (.exchange e1id .LOCAL e1t e1s e1o e1i
            [.limitN limitId count step
              (.exchange e2id .LOCAL e2t e2s e2o e2i
                [.filterN fid predicate
                  (.exchange e3id .LOCAL e3t e3s e3o e3i
                    [.rowNumberN rnid rnVar rnSrc])])]) = .ok none) := by
  refine ⟨?_, ?_, ?_⟩
  · intro tid id assignments source hid
    have htry : tryConvertOffsetLimit tid id assignments source =
        .ok none := by
      rw [tryConvertOffsetLimit.eq_def]
      simp only [hid, Bool.not_false, if_true]
    refine ⟨htry, ?_⟩
    simp only [toVeloxQueryPlan]
    rw [htry]
    cases hsrc : toVeloxQueryPlan tid source <;>
      simp [hsrc, Bind.bind, Except.bind, Except.map]
  · intro tid id e1id assignments e1t e1s e1o e1i child hrr
    have htry : tryConvertOffsetLimit tid id assignments
        (.exchange e1id .LOCAL e1t e1s e1o e1i [child]) = .ok none := by
      rw [tryConvertOffsetLimit.eq_def]
      by_cases hid : isIdentityAssignments assignments
      · simp only [hid, Bool.not_true, if_false]
        simp [hrr]
      · simp only [hid, Bool.not_false, if_true]
    refine ⟨htry, ?_⟩
    simp only [toVeloxQueryPlan]
    rw [htry]
    cases hsrc : toVeloxQueryPlan tid
        (.exchange e1id .LOCAL e1t e1s e1o e1i [child]) <;>
      simp [hsrc, Bind.bind, Except.bind, Except.map]
  · intro tid id e1id e2id e3id limitId fid rnid assignments e1t e2t e3t
      e1s e2s e3s e1o e2o e3o e1i e2i e3i count step predicate rnVar rnSrc
      hpred
    rw [tryConvertOffsetLimit]
    by_cases hid : isIdentityAssignments assignments
    · simp only [hid, Bool.not_true, if_false]
      by_cases hrr : isRoundRobinPartitionOf e1t e1s
      · simp [hrr, hpred]
      · simp [hrr]
    · simp only [hid, Bool.not_false, if_true]

/-- C2 witness: the amended theorem applied at a non-identity
projection, a gathering first exchange, and a chain whose filter
predicate is a plain variable. -/
theorem c2_witness :
    tryConvertOffsetLimit tid0 "p" [(vx, .varExpr vrn)] rnSource0 =
        .ok none ∧
      tryConvertOffsetLimit tid0 "p" idAsgs
        (.exchange "e1" .LOCAL .GATHER singleScheme none [] [rnSource0]) =
        .ok none ∧
      tryConvertOffsetLimit tid0 "p" idAsgs
        (offsetChainWith (.varExpr vrn) .REPARTITION hashScheme .GATHER
          singleScheme) =
        .ok none :=
  ⟨(c2_rewrite_no_match.1 tid0 "p" [(vx, .varExpr vrn)] rnSource0
      (by decide)).1,
    (c2_rewrite_no_match.2.1 tid0 "p" "e1" idAsgs .GATHER singleScheme
      none [] rnSource0 (by decide)).1,
    c2_rewrite_no_match.2.2 tid0 "p" "e1" "e2" "e3" "l" "f" "rn" idAsgs
      .REPARTITION .REPARTITION .GATHER rrScheme hashScheme singleScheme
      none none none [] [] [] 10 .FINAL (.varExpr vrn) vrn rnSource0
      (by decide)⟩

/-! ## Claim C3 -/

/-- The anti-join predicate test of the Filter-over-SemiJoin lowering:
the predicate is a NOT call whose first argument is the semi-join output
flag (the isNot plus equal composition in the source). -/
def notFlagPred (pred : RowExpression) (outVar : VariableRef) : Bool :=
  match isNot pred with
  | some (arg0 :: _) => equal arg0 outVar
  | _ => false

/-- The semi-join output flag variable. -/
def vflag : VariableRef := ⟨"flag", "boolean"⟩

/-- The probe-side join variable. -/
def va : VariableRef := ⟨"a", "bigint"⟩

/-- The build-side join variable. -/
def vb : VariableRef := ⟨"b", "bigint"⟩

/-- A probe-side values source. -/
def semiLeft : PlanNode := .valuesN "vl" [va] []

/-- A build-side values source. -/
def semiRight : PlanNode := .valuesN "vr" [vb] []

/-- The concrete Filter node over a Semi-Join whose predicate is exactly
the output flag variable. -/
def c3CexNode : PlanNode :=
  .filterN "f" (.varExpr vflag)
    (.semiJoinN "sj" semiLeft semiRight va vb vflag)

/-- True when a translation result is a hash join node at the root. -/
def rootIsHashJoin (r : Conv CorePlanNode) : Bool :=
  match r with
  | .ok (.hashJoin _ _ _ _ _ _ _ _ _) => true
  | _ => false

/-- The output column names of a successful translation result. -/
def rootOutputNames (r : Conv CorePlanNode) : List String :=
  match r with
  | .ok n => n.outputType.map Prod.fst
  | _ => []

/-- C3 counterexample: translating a Filter whose predicate is exactly
the semi-join output flag yields a Project node — not a hash join — and
the result carries a boolean flag column (as a constant-true projection),
so the claim that this case yields a filtering hash join with no boolean
flag column is false. -/
theorem c3_counterexample :
    rootIsHashJoin (toVeloxQueryPlan tid0 c3CexNode) = false ∧
      (rootOutputNames (toVeloxQueryPlan tid0 c3CexNode)).contains "flag" =
        true := by
  have hres : toVeloxQueryPlan tid0 c3CexNode =
      .ok (.project "f" ["a", "flag"]
        [.fieldAccess .bigintT "a", .constantExpr .booleanT (.boolVal true)]
        (.hashJoin "sj" .kLeftSemiFilter false [.fieldAccess .bigintT "a"]
          [.fieldAccess .bigintT "b"] none
          (.valuesNode "vl" [("a", .bigintT)])
          (.valuesNode "vr" [("b", .bigintT)]) [("a", .bigintT)])) := by
    simp [c3CexNode, toVeloxQueryPlan, semiLeft, semiRight, va, vb, vflag,
      equal, toVeloxExpr, stringToType, toRowTypeL, toRowTypeEx,
      CorePlanNode.outputType, Bind.bind, Except.bind]
  rw [hres]
  exact ⟨rfl, rfl⟩

/-- C3 amended: for every wire Filter node over a Semi-Join, if the
predicate equals the semi-join output flag, translation yields a Project
node appending the flag as a constant-true boolean column over a
filtering (left-semi-filter) hash join whose own output has no flag
column; if the predicate is exactly NOT of the flag, it yields such a
Project with a constant-false flag over a null-aware anti join; and for
any other predicate it yields the original Filter applied unchanged on
top of a projecting (left-semi-project) hash join whose output appends
the boolean flag column to the probe-side columns. -/
theorem c3_semi_join_lowering
    (tid : TaskIdM) (id sjId : String) (predicate : RowExpression)
    (sjSource sjFilteringSource : PlanNode)
    (srcVar filtVar outVar : VariableRef)
    (left right : CorePlanNode)
    (hL : toVeloxQueryPlan tid sjSource = .ok left)
    (hR : toVeloxQueryPlan tid sjFilteringSource = .ok right) :
    (equal predicate outVar = true →
      toVeloxQueryPlan tid (.filterN id predicate
        (.semiJoinN sjId sjSource sjFilteringSource srcVar filtVar
          outVar)) =
        .ok (.project id (left.outputType.map Prod.fst ++ [outVar.name])
          (left.outputType.map (fun p => TypedExpr.fieldAccess p.2 p.1) ++
            [.constantExpr .booleanT (.boolVal true)])
          (.hashJoin sjId .kLeftSemiFilter false
            [toVeloxExpr (.varExpr srcVar)]
            [toVeloxExpr (.varExpr filtVar)] none left right
            left.outputType))) ∧
    (equal predicate outVar = false → notFlagPred predicate outVar = true →
      toVeloxQueryPlan tid (.filterN id predicate
        (.semiJoinN sjId sjSource sjFilteringSource srcVar filtVar
          outVar)) =
        .ok (.project id (left.outputType.map Prod.fst ++ [outVar.name])
          (left.outputType.map (fun p => TypedExpr.fieldAccess p.2 p.1) ++
            [.constantExpr .booleanT (.boolVal false)])
          (.hashJoin sjId .kAnti true [toVeloxExpr (.varExpr srcVar)]
            [toVeloxExpr (.varExpr filtVar)] none left right
            left.outputType))) ∧
    (equal predicate outVar = false →
      notFlagPred predicate outVar = false →
      toVeloxQueryPlan tid (.filterN id predicate
        (.semiJoinN sjId sjSource sjFilteringSource srcVar filtVar
          outVar)) =
        .ok (.filterNode id (toVeloxExpr predicate)
          (.hashJoin sjId .kLeftSemiProject false
            [toVeloxExpr (.varExpr srcVar)]
            [toVeloxExpr (.varExpr filtVar)] none left right
            ((left.outputType.map Prod.fst ++ [outVar.name]).zip
              (left.outputType.map Prod.snd ++ [.booleanT]))))) := by
  refine ⟨?_, ?_, ?_⟩
  · intro heq
    simp only [toVeloxQueryPlan, heq, if_true, Bind.bind, Except.bind, hL,
      hR]
    rfl
  · intro heq hnf
    rw [notFlagPred] at hnf
    cases hN : isNot predicate with
    | none => rw [hN] at hnf; exact absurd hnf (by simp)
    | some args =>
      cases args with
      | nil => rw [hN] at hnf; exact absurd hnf (by simp)
      | cons arg0 rest =>
        rw [hN] at hnf
        simp only at hnf
        simp only [toVeloxQueryPlan, heq, if_false, Bool.false_eq_true,
          hN, hnf, if_true, Bind.bind, Except.bind, hL, hR]
        rfl
  · intro heq hnf
    rw [notFlagPred] at hnf
    cases hN : isNot predicate with
    | none =>
      simp only [toVeloxQueryPlan, heq, if_false, Bool.false_eq_true, hN,
        Bind.bind, Except.bind, hL, hR]
    | some args =>
      cases args with
      | nil =>
        simp only [toVeloxQueryPlan, heq, if_false, Bool.false_eq_true,
          hN, Bind.bind, Except.bind, hL, hR]
      | cons arg0 rest =>
        rw [hN] at hnf
        simp only at hnf
        simp only [toVeloxQueryPlan, heq, if_false, Bool.false_eq_true,
          hN, hnf, Bind.bind, Except.bind, hL, hR]

/-- C3 witness: the amended theorem applied at the concrete flag
predicate. -/
theorem c3_witness :
    equal (.varExpr vflag) vflag = true ∧
      toVeloxQueryPlan tid0 c3CexNode =
        .ok (.project "f" ["a", "flag"]
          [.fieldAccess .bigintT "a",
            .constantExpr .booleanT (.boolVal true)]
          (.hashJoin "sj" .kLeftSemiFilter false
            [.fieldAccess .bigintT "a"] [.fieldAccess .bigintT "b"] none
            (.valuesNode "vl" [("a", .bigintT)])
            (.valuesNode "vr" [("b", .bigintT)]) [("a", .bigintT)])) :=
  ⟨by decide,
    (c3_semi_join_lowering tid0 "f" "sj" (.varExpr vflag) semiLeft
      semiRight va vb vflag (.valuesNode "vl" [("a", .bigintT)])
      (.valuesNode "vr" [("b", .bigintT)])
      (by simp [semiLeft, toVeloxQueryPlan, toRowTypeL, toRowTypeEx, va,
        stringToType])
      (by simp [semiRight, toVeloxQueryPlan, toRowTypeL, toRowTypeEx, vb,
        stringToType])).1 (by decide)⟩

/-! ## Claim C4 -/

/-- Successful bind inversion for the translation monad. -/
lemma bind_ok_iff {α β : Type} (x : Conv α) (f : α → Conv β) (v : β) :
    Except.bind x f = .ok v ↔ ∃ a, x = .ok a ∧ f a = .ok v := by
  cases x <;> simp [Except.bind]

/-- A node recognized as an Output node is one. -/
lemma asOutputNode_eq_some (node : PlanNode) (oid : String)
    (ovars : List VariableRef) (osrc : PlanNode)
    (h : asOutputNode node = some (oid, ovars, osrc)) :
    node = .outputN oid ovars osrc := by
  cases node <;> simp [asOutputNode] at h
  obtain ⟨h1, h2, h3⟩ := h
  subst h1; subst h2; subst h3
  rfl

/-- The claim hypothesis of C4: the partitioning scheme resolves to
exactly one partition under a hash, round-robin, or hive-bucket function
kind (the three kinds the claim quantifies over). -/
def resolvesToSinglePartition (scheme : PartitioningScheme) : Bool :=
  match scheme.handle, scheme.bucketToPartition with
  | .system .FIXED .HASH, some l => l.length == 1
  | .system .FIXED .ROUND_ROBIN, some l => l.length == 1
  | .hivePart _ _, some l => l.max? == some 0
  | _, _ => false

/-- Under a one-partition scheme of hash, round-robin or hive-bucket
kind, the emitted root output node is always the single form. -/
lemma emitPartitionedOutput_single (scheme : PartitioningScheme)
    (partitioningKeys : List TypedExpr) (keyChannels : List Channel)
    (constValues : List Block) (inputType outputType : RowTypeL)
    (sourceNode : CorePlanNode) (n : CorePlanNode)
    (hone : resolvesToSinglePartition scheme = true)
    (h : emitPartitionedOutput scheme partitioningKeys keyChannels
      constValues inputType outputType sourceNode = .ok n) :
    isSingleOutput n = true := by
  obtain ⟨handle, args, layout, b2p, rep⟩ := scheme
  cases handle with
  | system p f =>
    cases p with
    | SINGLE => simp [resolvesToSinglePartition] at hone
    | COORDINATOR_ONLY => simp [resolvesToSinglePartition] at hone
    | FIXED =>
      cases f with
      | SINGLE => simp [resolvesToSinglePartition] at hone
      | BROADCAST => simp [resolvesToSinglePartition] at hone
      | UNKNOWN => simp [resolvesToSinglePartition] at hone
      | HASH =>
        cases b2p with
        | none => simp [resolvesToSinglePartition] at hone
        | some l =>
          simp [resolvesToSinglePartition] at hone
          simp [emitPartitionedOutput, bucketToPartitionSize, hone,
            Bind.bind, Except.bind] at h
          subst h
          rfl
      | ROUND_ROBIN =>
        cases b2p with
        | none => simp [resolvesToSinglePartition] at hone
        | some l =>
          simp [resolvesToSinglePartition] at hone
          simp [emitPartitionedOutput, bucketToPartitionSize, hone,
            Bind.bind, Except.bind] at h
          subst h
          rfl
  | hivePart bc bft =>
    cases b2p with
    | none => simp [resolvesToSinglePartition] at hone
    | some l =>
      simp [resolvesToSinglePartition] at hone
      simp [emitPartitionedOutput, hone, Bind.bind, Except.bind, pure,
        Except.pure] at h
      subst h
      rfl
  | otherPart tag => simp [resolvesToSinglePartition] at hone

/-- C4: for every plan fragment whose partitioning scheme resolves to
exactly one partition, the fragment assembler emits a single
partitioned-output node at the root, regardless of the requested
partition function kind (hash, round-robin, or hive-bucket). -/
theorem c4_single_partition_collapse (tid : TaskIdM)
    (fragment : PlanFragmentW) (pf : CorePlanFragment)
    (hone : resolvesToSinglePartition fragment.partitioningScheme = true)
    (h : toVeloxQueryPlanFragment tid fragment = .ok pf) :
    isSingleOutput pf.planNode = true := by
  simp only [toVeloxQueryPlanFragment, Bind.bind] at h
  rw [bind_ok_iff] at h
  obtain ⟨strategy, hs, h⟩ := h
  by_cases hg : (strategy == ExecutionStrategy.kGrouped &&
      fragment.stageExecutionDescriptor.groupedExecutionScanNodes.isEmpty)
  · rw [if_pos hg] at h
    exact absurd h (by simp)
  · rw [if_neg hg] at h
    cases hout : asOutputNode fragment.root with
    | some out =>
      rw [hout] at h
      obtain ⟨oid, ovars, osrc⟩ := out
      have hroot := asOutputNode_eq_some fragment.root oid ovars osrc hout
      rw [bind_ok_iff] at h
      obtain ⟨planNode, hpn, h⟩ := h
      rw [hroot] at hpn
      simp only [toVeloxQueryPlan, Bind.bind] at hpn
      rw [bind_ok_iff] at hpn
      obtain ⟨child, hc, hpn⟩ := hpn
      simp only [Except.ok.injEq] at hpn h
      rw [← h, ← hpn]
      rfl
    | none =>
      rw [hout] at h
      rw [bind_ok_iff] at h
      obtain ⟨keys, hk, h⟩ := h
      rw [bind_ok_iff] at h
      obtain ⟨sourceNode, hsrc, h⟩ := h
      rw [bind_ok_iff] at h
      obtain ⟨resolved, hres, h⟩ := h
      rw [bind_ok_iff] at h
      obtain ⟨planNode, hemit, h⟩ := h
      simp only [Except.ok.injEq] at h
      rw [← h]
      exact emitPartitionedOutput_single fragment.partitioningScheme keys
        resolved.1 resolved.2 sourceNode.outputType
        (toRowTypeL fragment.partitioningScheme.outputLayout) sourceNode
        planNode hone hemit

/-- A one-partition hash partitioning scheme over the column x. -/
def c4ExScheme : PartitioningScheme :=
  ⟨.system .FIXED .HASH, [], [vx], some [0], false⟩

/-- A fragment carrying the one-partition hash scheme over a values
root. -/
def c4Ex : PlanFragmentW :=
  ⟨rnSource0, c4ExScheme, ⟨.UNGROUPED_EXECUTION, 1, []⟩⟩

/-- The assembled fragment for the one-partition hash fragment. -/
def c4Pf : CorePlanFragment :=
  ⟨.partitionedOutputSingle "root" [("x", .bigintT)]
    (.valuesNode "v" [("x", .bigintT)]), .kUngrouped, 1, []⟩

/-- C4 witness: the theorem applied at the concrete one-partition hash
fragment. -/
theorem c4_witness :
    resolvesToSinglePartition c4ExScheme = true ∧
      isSingleOutput c4Pf.planNode = true :=
  ⟨by decide,
    c4_single_partition_collapse tid0 c4Ex c4Pf (by decide)
      (by simp [c4Ex, c4ExScheme, toVeloxQueryPlanFragment, toStrategy,
        asOutputNode, rnSource0, toTypedExprsW, resolveChannels,
        toVeloxQueryPlan, toRowTypeL, toRowTypeEx, vx, stringToType,
        emitPartitionedOutput, bucketToPartitionSize,
        CorePlanNode.outputType, c4Pf, Bind.bind, Except.bind, pure,
        Except.pure, List.mapM, List.mapM.loop, List.foldlM])⟩

end Presto
